import Mathlib

/-!
# Verification of the mcp-compose process/port lifecycle manager

Shallow embedding of the TypeScript sources of `mcp-compose`:

* `src/supergateway.ts` — command builder (`buildStdioCommand`,
  `buildSupergatewayCmdForServer`), config normalizer (`normalizeConfig`,
  `normalizeServer`), port allocator (`findAvailablePort`, `allocatePorts`).
* `src/pm2.ts` — reconciler (`startServers`, `isProcessConfigMatch`,
  `getRunningProcess`, `isManagedProcess`, `getStatus`, `pm2Delete`,
  `parseMemoryLimit`).
* `src/sync.ts` — client-config synchronizer (`generateClaudeConfig`,
  `syncToClaudeConfig`, `removeFromClaudeConfig`).

Modelling conventions:

* JavaScript objects (`Record<string, T>`) are association lists
  `List (String × T)` in insertion order; `obj[k] = v` overwrites the value
  in place when the key exists and appends otherwise (`setKey`), `obj[k]`
  reads the first (unique) matching entry (`lookup`), `delete obj[k]`
  removes it (`removeKey`).  JS objects cannot hold duplicate keys, so
  theorems about round trips assume `Nodup` keys where needed.
* Filesystem and network effects are made explicit: the OS port table is an
  oracle `avail : Nat → Bool` frozen for the duration of one allocation
  call; the client-config file is an `Option ClaudeConfig` (`none` = file
  absent); the pm2 daemon state is a `List ProcRecord`, and the supervisor
  is modelled as faithful: a `start` call appends a record carrying exactly
  the options given, a `delete` removes records with the given name.
* `path.resolve` is modelled without `..`/`.` normalization (no input in
  this development contains them): an absolute path is returned verbatim,
  a relative one is joined onto the base directory.
-/

namespace MC

/-! ## Association lists with JavaScript object semantics -/

/-- `obj[k]` — first binding of `k`, `none` when the key is absent. -/
def lookup {α : Type} : List (String × α) → String → Option α
  | [], _ => none
  | (k, v) :: rest, key => if k = key then some v else lookup rest key

/-- `obj[k] = v` — overwrite in place when the key exists, append otherwise. -/
def setKey {α : Type} : List (String × α) → String → α → List (String × α)
  | [], key, v => [(key, v)]
  | (k, w) :: rest, key, v =>
    if k = key then (key, v) :: rest else (k, w) :: setKey rest key v

/-- `delete obj[k]`. -/
def removeKey {α : Type} (l : List (String × α)) (key : String) : List (String × α) :=
  l.filter (fun kv => kv.1 ≠ key)

theorem lookup_eq_none {α : Type} (l : List (String × α)) (key : String)
    (h : key ∉ l.map Prod.fst) : lookup l key = none := by
  induction l with
  | nil => rfl
  | cons kv rest ih =>
    obtain ⟨k, v⟩ := kv
    simp only [List.map_cons, List.mem_cons, not_or] at h
    have hk : ¬ k = key := fun he => h.1 he.symm
    simp only [lookup, if_neg hk]
    exact ih h.2

theorem lookup_self {α : Type} (l : List (String × α)) (k : String) (v : α)
    (hnd : (l.map Prod.fst).Nodup) (hm : (k, v) ∈ l) : lookup l k = some v := by
  induction l with
  | nil => cases hm
  | cons kv rest ih =>
    obtain ⟨k0, v0⟩ := kv
    simp only [List.map_cons, List.nodup_cons] at hnd
    rcases List.mem_cons.mp hm with h | h
    · cases h
      simp [lookup]
    · have hne : ¬ k0 = k := by
        intro he
        exact hnd.1 (he ▸ (List.mem_map.mpr ⟨(k, v), h, rfl⟩))
      simp only [lookup, if_neg hne]
      exact ih hnd.2 h

theorem setKey_keys_of_mem {α : Type} (l : List (String × α)) (key : String) (v : α)
    (h : key ∈ l.map Prod.fst) : (setKey l key v).map Prod.fst = l.map Prod.fst := by
  induction l with
  | nil => cases h
  | cons kv rest ih =>
    obtain ⟨k, w⟩ := kv
    by_cases hk : k = key
    · subst hk
      simp [setKey]
    · simp only [List.map_cons, List.mem_cons] at h
      rcases h with h | h
      · exact absurd h.symm hk
      · simp [setKey, hk, ih h]

theorem setKey_keys_of_not_mem {α : Type} (l : List (String × α)) (key : String) (v : α)
    (h : key ∉ l.map Prod.fst) :
    (setKey l key v).map Prod.fst = l.map Prod.fst ++ [key] := by
  induction l with
  | nil => rfl
  | cons kv rest ih =>
    obtain ⟨k, w⟩ := kv
    simp only [List.map_cons, List.mem_cons, not_or] at h
    have hk : ¬ k = key := fun he => h.1 he.symm
    simp [setKey, hk, ih h.2]

theorem setKey_keys_nodup {α : Type} (l : List (String × α)) (key : String) (v : α)
    (hnd : (l.map Prod.fst).Nodup) : ((setKey l key v).map Prod.fst).Nodup := by
  by_cases h : key ∈ l.map Prod.fst
  · rw [setKey_keys_of_mem l key v h]; exact hnd
  · rw [setKey_keys_of_not_mem l key v h]
    simpa using List.Nodup.append hnd (List.nodup_singleton key)
      (by simpa [List.disjoint_singleton] using h)

theorem lookup_setKey_self {α : Type} (l : List (String × α)) (key : String) (v : α) :
    lookup (setKey l key v) key = some v := by
  induction l with
  | nil => simp [setKey, lookup]
  | cons kv rest ih =>
    obtain ⟨k, w⟩ := kv
    by_cases hk : k = key
    · subst hk
      simp [setKey, lookup]
    · simp [setKey, hk, lookup, ih]

theorem lookup_setKey_ne {α : Type} (l : List (String × α)) (key k : String) (v : α)
    (h : k ≠ key) : lookup (setKey l key v) k = lookup l k := by
  have hk' : ¬ key = k := fun he => h he.symm
  induction l with
  | nil => simp [setKey, lookup, hk']
  | cons kv rest ih =>
    obtain ⟨k0, w⟩ := kv
    by_cases hk : k0 = key
    · rw [show setKey ((k0, w) :: rest) key v = (key, v) :: rest by simp [setKey, hk]]
      have hk0 : ¬ k0 = k := fun he => hk' (hk ▸ he)
      simp [lookup, hk', hk0]
    · simp only [setKey, if_neg hk, lookup]
      by_cases hk0 : k0 = k
      · simp [hk0]
      · simp [hk0, ih]

theorem removeKey_cons {α : Type} (k0 : String) (w : α) (rest : List (String × α))
    (key : String) :
    removeKey ((k0, w) :: rest) key =
      if k0 = key then removeKey rest key else (k0, w) :: removeKey rest key := by
  by_cases hk : k0 = key <;> simp [removeKey, List.filter_cons, hk]

theorem lookup_removeKey_ne {α : Type} (l : List (String × α)) (key k : String)
    (h : k ≠ key) : lookup (removeKey l key) k = lookup l k := by
  induction l with
  | nil => rfl
  | cons kv rest ih =>
    obtain ⟨k0, w⟩ := kv
    rw [removeKey_cons]
    by_cases hk : k0 = key
    · rw [if_pos hk, ih]
      have hnk : ¬ k0 = k := fun he => h (he ▸ hk)
      simp [lookup, hnk]
    · rw [if_neg hk]
      by_cases hk0 : k0 = k <;> simp [lookup, hk0, ih]

/-! ## String helpers -/

/-- `needle` is a prefix of `hay` (character lists). -/
def startsWithChars : List Char → List Char → Bool
  | [], _ => true
  | _ :: _, [] => false
  | a :: as, b :: bs => a == b && startsWithChars as bs

/-- `hay.includes(needle)` — JavaScript `String.prototype.includes`. -/
def hasSubstrChars (needle : List Char) : List Char → Bool
  | [] => startsWithChars needle []
  | c :: rest => startsWithChars needle (c :: rest) || hasSubstrChars needle rest

/-- `s.includes(sub)`. -/
def strIncludes (s sub : String) : Bool :=
  hasSubstrChars sub.data s.data

/-- `s.startsWith(pre)` (character-list model of the string primitive). -/
def strStartsWith (s pre : String) : Bool :=
  startsWithChars pre.data s.data

/-- `s.slice(n)` (character-list model of the string primitive). -/
def strDrop (s : String) (n : Nat) : String :=
  String.mk (s.data.drop n)

/-- `s.includes(c)` for a single character. -/
def strContainsChar (s : String) (c : Char) : Bool :=
  s.data.contains c

/--
`path.resolve(base, p)` — absolute `p` is returned verbatim, a relative `p`
is joined onto `base` (no `..`/`.` normalization; see module docstring).
-/
def pathResolve (base p : String) : String :=
  if strStartsWith p "/" then p else base ++ "/" ++ p

/--
`expandPath` from `src/config.ts`:
`p.startsWith('~/') ? resolve(homedir(), p.slice(2)) : resolve(p)`.
The ambient home directory and working directory are explicit parameters.
-/
def expandPath (home cwd p : String) : String :=
  if strStartsWith p "~/" then pathResolve home (strDrop p 2) else pathResolve cwd p

/-! ## Memory-limit parsing (`parseMemoryLimit`, src/pm2.ts lines 34–50) -/

/-- A `maxMemory` value: JS `string | number`. -/
inductive MemLimit : Type
  | num (n : Nat)
  | str (s : String)
  deriving DecidableEq, Repr

/-- Multiplier of a `K`/`M`/`G` suffix character (case-insensitive), if any. -/
def memSuffixMult (c : Char) : Option Nat :=
  if c = 'K' ∨ c = 'k' then some 1024
  else if c = 'M' ∨ c = 'm' then some (1024 * 1024)
  else if c = 'G' ∨ c = 'g' then some (1024 * 1024 * 1024)
  else none

/-- Decimal value of a digit string (`parseInt(match[1], 10)` on `\d+`). -/
def digitsVal (cs : List Char) : Nat :=
  cs.foldl (fun a c => a * 10 + (c.toNat - 48)) 0

/--
`parseMemoryLimit` (src/pm2.ts): a number is returned as-is; a string must
match `^(\d+)([KMG])?$` (case-insensitive), the digits scaled by the suffix
multiplier; anything else yields `undefined` (`none`).
-/
def parseMemoryLimit : MemLimit → Option Nat
  | .num n => some n
  | .str s =>
    match s.data.getLast? with
    | none => none
    | some last =>
      match memSuffixMult last with
      | some mult =>
        let ds := s.data.dropLast
        if ds ≠ [] ∧ ds.all Char.isDigit then some (digitsVal ds * mult) else none
      | none =>
        if s.data ≠ [] ∧ s.data.all Char.isDigit then some (digitsVal s.data) else none

/-! ## Command builder (src/supergateway.ts lines 4–40) -/

/-- A character matching the JS regex `/[\s"'\\]/`. -/
def isSpecialChar (c : Char) : Bool :=
  c.isWhitespace || c == '"' || c == '\'' || c == '\\'

/-- `part.replace(/["\\]/g, '\\$&')` — backslash-escape `"` and `\`. -/
def escapeChars : List Char → List Char
  | [] => []
  | c :: rest =>
    if c = '"' ∨ c = '\\' then '\\' :: c :: escapeChars rest
    else c :: escapeChars rest

/-- Quote one part of the `--stdio` string (src/supergateway.ts lines 33–38). -/
def quoteArg (part : String) : String :=
  if part.data.any isSpecialChar then
    "\"" ++ String.mk (escapeChars part.data) ++ "\""
  else part

/--
`buildStdioCommand` (src/supergateway.ts lines 22–40): every argument that
*contains* `~` anywhere is run through `expandPath`; then command and
arguments are quoted and joined with single spaces.
-/
def buildStdioCommand (home cwd : String) (command : String) (args : List String) : String :=
  let expandedArgs := args.map (fun arg =>
    if strContainsChar arg '~' then expandPath home cwd arg else arg)
  let allParts := command :: expandedArgs
  String.intercalate " " (allParts.map quoteArg)

/-- The `{script, args}` pair handed to pm2. -/
structure SupergatewayCommand where
  script : String
  args : List String
  deriving DecidableEq, Repr

/-- `buildSupergatewayCmdForServer` (src/supergateway.ts lines 4–20). -/
def buildSupergatewayCmd (home cwd : String) (command : String) (args : List String)
    (internalPort : Nat) : SupergatewayCommand :=
  { script := "npx"
    args := ["-y", "supergateway@latest", "--stdio",
             buildStdioCommand home cwd command args, "--port", toString internalPort] }

/--
Analysis helper, not part of the source: inverse of the minimal quoting,
used to state that `quoteArg` is lossless.  Strips one layer of surrounding
double quotes and undoes the backslash escaping.
-/
def unescapeChars : List Char → List Char
  | [] => []
  | c :: rest =>
    if c = '\\' then
      match rest with
      | [] => [c]
      | d :: rest2 => d :: unescapeChars rest2
    else c :: unescapeChars rest

/-- Analysis helper: inverse of `quoteArg`. -/
def unquoteArg (s : String) : String :=
  match s.data with
  | c :: rest =>
    if c = '"' ∧ rest.getLast? = some '"' then String.mk (unescapeChars rest.dropLast)
    else s
  | [] => s

/-! ## Port allocator (src/supergateway.ts lines 301–335) -/

/-- The two failure modes of `findAvailablePort`. -/
inductive PortError : Type
  | exceededMax       -- "No available ports found (exceeded port 65535)"
  | exhaustedAttempts -- "No available ports found after N attempts ..."
  deriving DecidableEq, Repr

/--
The probe loop of `findAvailablePort`: remaining attempt budget first runs
out (`exhaustedAttempts`); within the budget a port above 65535 aborts
(`exceededMax`), otherwise the first port the oracle reports bindable is
returned and the cursor moves on.
-/
def findAvailPortAux (avail : Nat → Bool) : Nat → Nat → Except PortError Nat
  | _, 0 => .error .exhaustedAttempts
  | port, fuel + 1 =>
    if port > 65535 then .error .exceededMax
    else if avail port then .ok port
    else findAvailPortAux avail (port + 1) fuel

/-- `findAvailablePort(startPort, maxAttempts = 100)` (lines 301–312). -/
def findAvailablePort (avail : Nat → Bool) (startPort : Nat)
    (maxAttempts : Nat := 100) : Except PortError Nat :=
  findAvailPortAux avail startPort maxAttempts

/--
`allocatePorts(serverCount, portBase, onPortSkipped)` (lines 317–335).
Returns the allocated ports in slot order together with the list of
`onPortSkipped(nextPort, availablePort)` invocations, in order — the
callback fires at most once per slot, with the slot's starting cursor.
-/
def allocatePorts (avail : Nat → Bool) : Nat → Nat →
    Except PortError (List Nat × List (Nat × Nat))
  | 0, _ => .ok ([], [])
  | count + 1, nextPort => do
    let p ← findAvailablePort avail nextPort
    let (rest, skips) ← allocatePorts avail count (p + 1)
    .ok (p :: rest, (if p ≠ nextPort then [(nextPort, p)] else []) ++ skips)

/-- The slot-start cursors induced by a list of accepted ports. -/
def slotCursors (base : Nat) : List Nat → List Nat
  | [] => []
  | p :: rest => base :: slotCursors (p + 1) rest

/-! ## Process supervisor model (src/pm2.ts) -/

/-- The identity-marker environment variable (src/pm2.ts line 19). -/
def MCP_COMPOSE_MARKER : String := "__MCP_COMPOSE__"

/--
`Pm2EnvWithMarker` (src/pm2.ts lines 21–29): the fields of a supervisor
record's `pm2_env` that the code reads.  `marker` is the value of the
`__MCP_COMPOSE__` key, `none` when that environment variable is absent.
-/
structure Pm2Env where
  marker : Option String := none
  status : Option String := none
  pm_uptime : Option Nat := none
  restart_time : Option Nat := none
  pm_exec_path : Option String := none
  args : Option (List String) := none
  env : Option (List (String × String)) := none
  deriving DecidableEq, Repr

/-- A pm2 `ProcessDescription` as read by the code. -/
structure ProcRecord where
  name : Option String := none
  pm2_env : Option Pm2Env := none
  pid : Option Nat := none
  monit_memory : Option Nat := none
  monit_cpu : Option Nat := none
  deriving DecidableEq, Repr

/-- `getProcessName` (src/pm2.ts lines 113–115). -/
def getProcessName (serverName pfx : String) : String :=
  pfx ++ serverName

/-- `getRunningProcess` (src/pm2.ts lines 120–123): find by name only. -/
def getRunningProcess (list : List ProcRecord) (processName : String) : Option ProcRecord :=
  list.find? (fun p => p.name == some processName)

/-- `isProcessConfigMatch` (src/pm2.ts lines 128–158). -/
def isProcessConfigMatch (process : ProcRecord) (script : String) (args : List String)
    (env : List (String × String)) : Bool :=
  match process.pm2_env with
  | none => false
  | some pm2Env =>
    if pm2Env.status ≠ some "online" then false
    else if pm2Env.pm_exec_path ≠ some script then false
    else
      let currentArgs := pm2Env.args.getD []
      if currentArgs.length ≠ args.length then false
      else if (currentArgs.zip args).any (fun ab => ab.1 ≠ ab.2) then false
      else
        let currentEnv := pm2Env.env.getD []
        env.all (fun kv =>
          kv.1 == MCP_COMPOSE_MARKER || lookup currentEnv kv.1 == some kv.2)

/-- `isManagedProcess` (src/pm2.ts lines 163–166). -/
def isManagedProcess (p : ProcRecord) : Bool :=
  p.name.isSome && (p.pm2_env.bind Pm2Env.marker).isSome

/--
`pm2Delete` (src/pm2.ts lines 73–84): result of one delete call given the
error the supervisor reported (`none` = no error).  A "not found" error is
swallowed; any other error propagates.
-/
def pm2Delete (err : Option String) : Except String Unit :=
  match err with
  | none => .ok ()
  | some msg => if strIncludes msg "not found" then .ok () else .error msg

/-- Effect of a (successful) delete on the supervisor's process table. -/
def pm2DeleteState (st : List ProcRecord) (name : String) : List ProcRecord :=
  st.filter (fun p => p.name ≠ some name)

/-- `ResourceLimits` (src/types.ts). -/
structure ResourceLimits where
  maxMemory : Option MemLimit := none
  maxRestarts : Option Nat := none
  restartDelay : Option Nat := none
  deriving DecidableEq, Repr

/-- The pm2 `StartOptions` assembled by `startServers` (lines 223–239). -/
structure StartOptions where
  name : String
  script : String
  args : List String
  env : List (String × String)
  autorestart : Bool
  max_restarts : Nat
  restart_delay : Nat
  max_memory_restart : Option Nat
  deriving DecidableEq, Repr

/--
Faithful-supervisor model of `pm2.start`: the created record carries
exactly the options given (marker read out of the supplied environment),
and comes up online.
-/
def recordOfStart (o : StartOptions) : ProcRecord :=
  { name := some o.name
    pm2_env := some
      { marker := lookup o.env MCP_COMPOSE_MARKER
        status := some "online"
        pm_exec_path := some o.script
        args := some o.args
        env := some o.env } }

/-- A `NamedStdioServer` (src/types.ts). -/
structure NamedStdioServer where
  name : String
  command : String
  args : List String := []
  env : List (String × String) := []
  internalPort : Nat
  logLevel : String := "info"
  resourceLimits : ResourceLimits := {}
  deriving DecidableEq, Repr

/--
The `max_memory_restart` option computed by src/pm2.ts lines 234–239:
only set when `maxMemory` is present, parses, and is truthy (non-zero).
-/
def maxMemoryRestart (limits : ResourceLimits) : Option Nat :=
  match limits.maxMemory with
  | none => none
  | some lim =>
    match parseMemoryLimit lim with
    | some m => if m = 0 then none else some m
    | none => none

/-- The full `StartOptions` record built for one server (lines 223–239). -/
def startOptionsFor (home cwd pfx : String) (s : NamedStdioServer) : StartOptions :=
  let cmd := buildSupergatewayCmd home cwd s.command s.args s.internalPort
  { name := getProcessName s.name pfx
    script := cmd.script
    args := cmd.args
    env := setKey s.env MCP_COMPOSE_MARKER s.name
    autorestart := true
    max_restarts := s.resourceLimits.maxRestarts.getD 10
    restart_delay := s.resourceLimits.restartDelay.getD 1000
    max_memory_restart := maxMemoryRestart s.resourceLimits }

/-- A supervisor control-API call issued during a pass. -/
inductive SupCall : Type
  | delete (name : String)
  | start (options : StartOptions)
  deriving DecidableEq, Repr

/-- `ProgressEvent.type` values emitted by `startServers` (`up_to_date` is
`upToDate` here). -/
inductive EventType : Type
  | starting | started | recreating | recreated | upToDate | stopping | stopped
  deriving DecidableEq, Repr

/-- A progress event (`current`/`total` counters omitted — no claim reads
them). -/
structure Event where
  type : EventType
  server : String
  port : Nat
  deriving DecidableEq, Repr

/-- `StartResult` (src/types.ts). -/
structure StartResult where
  name : String
  processName : String
  port : Nat
  deriving DecidableEq, Repr

/-- Everything one reconciliation pass produces. -/
structure StepResult where
  state : List ProcRecord
  calls : List SupCall
  events : List Event
  results : List StartResult
  deriving Repr

/--
One iteration of the `startServers` loop (src/pm2.ts lines 185–252) over
the faithful-supervisor state: an existing record (found *by name*) whose
configuration matches yields `up_to_date` with no supervisor call; any
other situation deletes the name (idempotent no-op when absent) and starts
fresh, emitting `recreating`/`recreated` when a record existed and
`starting`/`started` otherwise.
-/
def processOne (home cwd pfx : String) (st : List ProcRecord) (s : NamedStdioServer) :
    StepResult :=
  let processName := getProcessName s.name pfx
  let cmd := buildSupergatewayCmd home cwd s.command s.args s.internalPort
  let envWithMarker := setKey s.env MCP_COMPOSE_MARKER s.name
  let existingProcess := getRunningProcess st processName
  let matched := match existingProcess with
    | some p => isProcessConfigMatch p cmd.script cmd.args envWithMarker
    | none => false
  if matched then
    { state := st
      calls := []
      events := [⟨.upToDate, s.name, s.internalPort⟩]
      results := [⟨s.name, processName, s.internalPort⟩] }
  else
    let isRecreate := existingProcess.isSome
    let options := startOptionsFor home cwd pfx s
    { state := pm2DeleteState st processName ++ [recordOfStart options]
      calls := [.delete processName, .start options]
      events := [⟨if isRecreate then .recreating else .starting, s.name, s.internalPort⟩,
                 ⟨if isRecreate then .recreated else .started, s.name, s.internalPort⟩]
      results := [⟨s.name, processName, s.internalPort⟩] }

/-- `startServers` (src/pm2.ts lines 175–256): the loop over the desired
servers, threading the supervisor state and accumulating calls, events and
results in order. -/
def startServers (home cwd : String) : List NamedStdioServer → (pfx : String) →
    List ProcRecord → StepResult
  | [], _, st => { state := st, calls := [], events := [], results := [] }
  | s :: rest, pfx, st =>
    let r := processOne home cwd pfx st s
    let restOut := startServers home cwd rest pfx r.state
    { state := restOut.state
      calls := r.calls ++ restOut.calls
      events := r.events ++ restOut.events
      results := r.results ++ restOut.results }

/-- `ServerStatus` (src/types.ts). -/
structure ServerStatus where
  name : String
  processName : Option String
  pid : Option Nat
  status : String
  uptime : Option Nat
  restarts : Nat
  memory : Option Nat
  cpu : Option Nat
  deriving DecidableEq, Repr

/-- `getStatus` (src/pm2.ts lines 309–323): only marker-bearing records
are listed; the reported name is recovered from the marker. -/
def getStatus (st : List ProcRecord) : List ServerStatus :=
  (st.filter isManagedProcess).map (fun p =>
    { name := (p.pm2_env.bind Pm2Env.marker).getD (p.name.getD "")
      processName := p.name
      pid := p.pid
      status := (p.pm2_env.bind Pm2Env.status).getD "unknown"
      uptime := p.pm2_env.bind Pm2Env.pm_uptime
      restarts := (p.pm2_env.bind Pm2Env.restart_time).getD 0
      memory := p.monit_memory
      cpu := p.monit_cpu })

/-! ## Config normalizer (src/supergateway.ts lines 214–402, i.e. the
current `src/config.ts`) -/

/-- `Settings` (src/types.ts). -/
structure Settings where
  portBase : Nat
  claudeConfigPath : String
  logLevel : String
  processPrefix : String
  deriving DecidableEq, Repr

/-- `DEFAULT_SETTINGS` (src/config.ts lines 214–219). -/
def DEFAULT_SETTINGS : Settings :=
  { portBase := 19100
    claudeConfigPath := "~/.mcp.json"
    logLevel := "info"
    processPrefix := "mcp-compose-" }

/-- `Partial<Settings>` as it appears in a raw config. -/
structure RawSettings where
  portBase : Option Nat := none
  claudeConfigPath : Option String := none
  logLevel : Option String := none
  processPrefix : Option String := none
  deriving DecidableEq, Repr

/-- `{...DEFAULT_SETTINGS, ...config.settings}` — present fields override. -/
def mergeSettings (base : Settings) (raw : Option RawSettings) : Settings :=
  match raw with
  | none => base
  | some r =>
    { portBase := r.portBase.getD base.portBase
      claudeConfigPath := r.claudeConfigPath.getD base.claudeConfigPath
      logLevel := r.logLevel.getD base.logLevel
      processPrefix := r.processPrefix.getD base.processPrefix }

/-- A raw (user-authored) server entry: every field optional, the union of
the stdio and remote shapes (src/types.ts `RawServerConfig`). -/
structure RawServer where
  type : Option String := none
  command : Option String := none
  args : Option (List String) := none
  env : Option (List (String × String)) := none
  url : Option String := none
  disabled : Bool := false
  logLevel : Option String := none
  resourceLimits : Option ResourceLimits := none
  deriving DecidableEq, Repr

/-- `NormalizedServer` (src/types.ts): tagged stdio/remote variant. -/
inductive NormalizedServer : Type
  | stdio (command : String) (args : List String) (env : List (String × String))
      (internalPort : Nat) (logLevel : String) (resourceLimits : ResourceLimits)
  | remote (type : String) (url : String)
  deriving DecidableEq, Repr

/-- `DEFAULT_RESOURCE_LIMITS` (src/config.ts lines 364–367). -/
def DEFAULT_RESOURCE_LIMITS : ResourceLimits :=
  { maxRestarts := some 10, restartDelay := some 1000 }

/-- `{...DEFAULT_RESOURCE_LIMITS, ...server.resourceLimits}`. -/
def mergeResourceLimits (base : ResourceLimits) (raw : Option ResourceLimits) :
    ResourceLimits :=
  match raw with
  | none => base
  | some r =>
    { maxMemory := (r.maxMemory).orElse (fun _ => base.maxMemory)
      maxRestarts := (r.maxRestarts).orElse (fun _ => base.maxRestarts)
      restartDelay := (r.restartDelay).orElse (fun _ => base.restartDelay) }

/-- `normalizeServer` (src/config.ts lines 369–402).  JS truthiness of
`!server.command` / `!server.url` rejects both an absent and an empty
string. -/
def normalizeServer (name : String) (server : RawServer) (internalPort : Nat)
    (settings : Settings) : Except String NormalizedServer :=
  let type := server.type.getD (if server.command.isSome then "stdio" else "http")
  if type = "stdio" then
    match server.command with
    | none => .error ("Server \"" ++ name ++ "\" is stdio type but missing command")
    | some c =>
      if c = "" then .error ("Server \"" ++ name ++ "\" is stdio type but missing command")
      else
        .ok (.stdio c (server.args.getD []) (server.env.getD []) internalPort
          (server.logLevel.getD settings.logLevel)
          (mergeResourceLimits DEFAULT_RESOURCE_LIMITS server.resourceLimits))
  else
    match server.url with
    | none => .error ("Server \"" ++ name ++ "\" is " ++ type ++ " type but missing url")
    | some u =>
      if u = "" then .error ("Server \"" ++ name ++ "\" is " ++ type ++ " type but missing url")
      else .ok (.remote type u)

/--
The `for (const [name, server] of Object.entries(config.mcpServers))` loop
of `normalizeConfig` (src/config.ts lines 344–355), threading `portIndex`:
disabled entries are skipped, each survivor is normalized with internal
port `portBase + portIndex`, and `portIndex` advances only on stdio
entries.  Output keeps iteration (insertion) order; JS object keys are
unique so consing equals `mcpServers[name] = normalized`.
-/
def normalizeEntries (settings : Settings) :
    List (String × RawServer) → Nat → Except String (List (String × NormalizedServer))
  | [], _ => .ok []
  | (name, server) :: rest, portIndex =>
    if server.disabled then normalizeEntries settings rest portIndex
    else do
      let normalized ← normalizeServer name server (settings.portBase + portIndex) settings
      let isStdio := match normalized with
        | .stdio _ _ _ _ _ _ => true
        | .remote _ _ => false
      let tail ← normalizeEntries settings rest (if isStdio then portIndex + 1 else portIndex)
      .ok ((name, normalized) :: tail)

/-- A raw config document (`configPath` passthrough omitted — unused by any
claim). -/
structure RawConfig where
  settings : Option RawSettings := none
  mcpServers : List (String × RawServer) := []

/-- `NormalizedConfig` (src/types.ts). -/
structure NormalizedConfig where
  settings : Settings
  mcpServers : List (String × NormalizedServer)
  deriving DecidableEq, Repr

/-- `normalizeConfig` (src/config.ts lines 337–362). -/
def normalizeConfig (home cwd : String) (config : RawConfig) :
    Except String NormalizedConfig := do
  let settings0 := mergeSettings DEFAULT_SETTINGS config.settings
  let settings := { settings0 with
    claudeConfigPath := expandPath home cwd settings0.claudeConfigPath }
  let servers ← normalizeEntries settings config.mcpServers 0
  .ok { settings := settings, mcpServers := servers }

/-- `getStdioServers` (src/config.ts lines 425–429). -/
def getStdioServers (config : NormalizedConfig) : List NamedStdioServer :=
  config.mcpServers.filterMap (fun nv =>
    match nv.2 with
    | .stdio c a e port lvl lim =>
        some { name := nv.1, command := c, args := a, env := e, internalPort := port,
               logLevel := lvl, resourceLimits := lim }
    | .remote _ _ => none)

/-- The internal ports of the stdio entries, in order (analysis helper). -/
def stdioPortsOf (servers : List (String × NormalizedServer)) : List Nat :=
  servers.filterMap (fun nv =>
    match nv.2 with
    | .stdio _ _ _ port _ _ => some port
    | .remote _ _ => none)

/-- The `serversWithPorts` map of the `up` command (bin/mcp-compose.ts
lines 100–107): overwrite each started server's `internalPort` with its
freshly allocated port (the code throws when `ports[i]` is out of range;
callers here always pass lists of equal length). -/
def serversWithPorts (servers : List NamedStdioServer) (ports : List Nat) :
    List NamedStdioServer :=
  List.zipWith (fun s p => { s with internalPort := p }) servers ports

/-! ## Client-config synchronizer (src/sync.ts) -/

/-- A `{type, url}` transport descriptor. -/
structure ClaudeServerConfig where
  type : String
  url : String
  deriving DecidableEq, Repr

/--
The client-config file: `mcpServers` plus arbitrary sibling top-level keys
(payloads opaque; order inside each component is the JS object insertion
order, and the position of the `mcpServers` key among its siblings is
preserved by the merge's overwrite-in-place, so byte identity of the
serialized file is structural identity here).
-/
structure ClaudeConfig where
  otherKeys : List (String × String) := []
  mcpServers : Option (List (String × ClaudeServerConfig)) := none
  deriving DecidableEq, Repr

/-- `generateClaudeConfig` (src/sync.ts lines 477–498). -/
def generateClaudeConfig (servers : List (String × NormalizedServer)) :
    List (String × ClaudeServerConfig) :=
  servers.foldl (fun acc nv =>
    match nv.2 with
    | .stdio _ _ _ port _ _ =>
        setKey acc nv.1 { type := "http", url := "http://localhost:" ++ toString port ++ "/mcp" }
    | .remote ty url => setKey acc nv.1 { type := ty, url := url }) []

/-- `syncToClaudeConfig` (src/sync.ts lines 500–535): content written back
(`existingFile = none` covers both a missing and an unparsable file, which
the code downgrades to an empty object with a warning). -/
def syncToClaudeConfig (existingFile : Option ClaudeConfig) (config : NormalizedConfig) :
    ClaudeConfig :=
  let existingConfig := existingFile.getD {}
  let newServers := generateClaudeConfig config.mcpServers
  { otherKeys := existingConfig.otherKeys
    mcpServers := some (newServers.foldl (fun acc nv => setKey acc nv.1 nv.2)
      (existingConfig.mcpServers.getD [])) }

/-- Outcome of `removeFromClaudeConfig`: the file afterwards (`none` = the
file did not exist and nothing was written) and the `removed` list. -/
structure RemoveOutcome where
  newFile : Option ClaudeConfig
  removed : List String
  deriving DecidableEq, Repr

/-- The `for (const name of toRemove)` loop of `removeFromClaudeConfig`
(src/sync.ts lines 565–571): delete the entries that exist, recording them
in `removed` in iteration order. -/
def removeNames (m : List (String × ClaudeServerConfig)) :
    List String → List (String × ClaudeServerConfig) × List String
  | [] => (m, [])
  | name :: rest =>
    if (lookup m name).isSome then
      let out := removeNames (removeKey m name) rest
      (out.1, name :: out.2)
    else removeNames m rest

/-- `removeFromClaudeConfig` (src/sync.ts lines 537–582). -/
def removeFromClaudeConfig (existingFile : Option ClaudeConfig)
    (config : NormalizedConfig) (serverNames : Option (List String)) : RemoveOutcome :=
  match existingFile with
  | none => { newFile := none, removed := [] }
  | some existingConfig =>
    match existingConfig.mcpServers with
    | none => { newFile := some existingConfig, removed := [] }
    | some m =>
      let toRemove := serverNames.getD (config.mcpServers.map Prod.fst)
      let out := removeNames m toRemove
      { newFile := some { existingConfig with mcpServers := some out.1 }
        removed := out.2 }

/--
The `onPortSkipped` invocations the code performs: one per slot whose
accepted port differs from that slot's starting cursor, carrying
`(cursorStart, acceptedPort)`.
-/
def expectedSkips (base : Nat) (ports : List Nat) : List (Nat × Nat) :=
  ((slotCursors base ports).zip ports).filter (fun cp => cp.1 ≠ cp.2)

/-! ## Port allocator facts -/

theorem findAvailPortAux_ok (avail : Nat → Bool) (fuel : Nat) :
    ∀ (port p : Nat), findAvailPortAux avail port fuel = .ok p →
      avail p = true ∧ port ≤ p := by
  induction fuel with
  | zero =>
    intro port p h
    simp [findAvailPortAux] at h
  | succ n ih =>
    intro port p h
    rw [findAvailPortAux] at h
    by_cases h1 : port > 65535
    · rw [if_pos h1] at h
      simp at h
    · rw [if_neg h1] at h
      by_cases h2 : avail port = true
      · rw [if_pos h2] at h
        simp only [Except.ok.injEq] at h
        subst h
        exact ⟨h2, Nat.le_refl _⟩
      · rw [if_neg h2] at h
        obtain ⟨ha, hle⟩ := ih (port + 1) p h
        exact ⟨ha, Nat.le_trans (Nat.le_succ port) hle⟩

theorem findAvailPortAux_skipped (avail : Nat → Bool) (fuel : Nat) :
    ∀ (port p : Nat), findAvailPortAux avail port fuel = .ok p → p ≠ port →
      avail port = false := by
  cases fuel with
  | zero =>
    intro port p h
    simp [findAvailPortAux] at h
  | succ n =>
    intro port p h hne
    rw [findAvailPortAux] at h
    by_cases h1 : port > 65535
    · rw [if_pos h1] at h
      simp at h
    · rw [if_neg h1] at h
      by_cases h2 : avail port = true
      · rw [if_pos h2] at h
        simp only [Except.ok.injEq] at h
        exact absurd h.symm hne
      · simpa using h2

theorem findAvailPortAux_all_false (avail : Nat → Bool) :
    ∀ (fuel base : Nat), (∀ i, i < fuel → avail (base + i) = false) →
      ∃ e, findAvailPortAux avail base fuel = .error e := by
  intro fuel
  induction fuel with
  | zero =>
    intro base _
    exact ⟨.exhaustedAttempts, rfl⟩
  | succ n ih =>
    intro base h
    by_cases h1 : base > 65535
    · exact ⟨.exceededMax, by rw [findAvailPortAux]; simp [h1]⟩
    · have h0 : avail base = false := by simpa using h 0 (Nat.succ_pos n)
      obtain ⟨e, he⟩ := ih (base + 1) (fun i hi => by
        have heq : base + 1 + i = base + (i + 1) := by omega
        rw [heq]
        exact h (i + 1) (Nat.succ_lt_succ hi))
      refine ⟨e, ?_⟩
      rw [findAvailPortAux]
      simp [h1, h0, he]

theorem allocatePorts_succ_inv (avail : Nat → Bool) (count nextPort : Nat)
    (ports : List Nat) (skips : List (Nat × Nat))
    (h : allocatePorts avail (count + 1) nextPort = .ok (ports, skips)) :
    ∃ p rest sk, findAvailablePort avail nextPort = .ok p ∧
      allocatePorts avail count (p + 1) = .ok (rest, sk) ∧
      ports = p :: rest ∧
      skips = (if p ≠ nextPort then [(nextPort, p)] else []) ++ sk := by
  rw [allocatePorts] at h
  cases hf : findAvailablePort avail nextPort with
  | error e =>
    rw [hf] at h
    simp [bind, Except.bind] at h
  | ok p =>
    rw [hf] at h
    simp only [bind, Except.bind] at h
    cases hr : allocatePorts avail count (p + 1) with
    | error e =>
      rw [hr] at h
      simp at h
    | ok out =>
      obtain ⟨rest, sk⟩ := out
      rw [hr] at h
      simp only [Except.ok.injEq, Prod.mk.injEq] at h
      exact ⟨p, rest, sk, rfl, hr, h.1.symm, h.2.symm⟩

theorem allocatePorts_succ_of_error (avail : Nat → Bool) (count nextPort : Nat)
    (e : PortError) (hf : findAvailablePort avail nextPort = .error e) :
    allocatePorts avail (count + 1) nextPort = .error e := by
  rw [allocatePorts, hf]
  rfl

theorem allocatePorts_ok_facts (avail : Nat → Bool) :
    ∀ (count portBase : Nat) (ports : List Nat) (skips : List (Nat × Nat)),
      allocatePorts avail count portBase = .ok (ports, skips) →
      ports.length = count ∧ (∀ q ∈ ports, portBase ≤ q ∧ avail q = true) ∧
        List.Chain' (· < ·) ports := by
  intro count
  induction count with
  | zero =>
    intro base ports skips h
    simp only [allocatePorts, Except.ok.injEq, Prod.mk.injEq] at h
    obtain ⟨h1, _⟩ := h
    subst h1
    exact ⟨rfl, by simp, List.chain'_nil⟩
  | succ n ih =>
    intro base ports skips h
    obtain ⟨p, rest, sk, hf, hr, hports, _⟩ := allocatePorts_succ_inv avail n base ports skips h
    subst hports
    obtain ⟨hlen, hmem, hchain⟩ := ih (p + 1) rest sk hr
    obtain ⟨hap, hbp⟩ := findAvailPortAux_ok avail 100 base p hf
    refine ⟨by simpa using hlen, ?_, ?_⟩
    · intro q hq
      rcases List.mem_cons.mp hq with rfl | hq'
      · exact ⟨hbp, hap⟩
      · obtain ⟨hq1, hq2⟩ := hmem q hq'
        exact ⟨Nat.le_trans (Nat.le_trans hbp (Nat.le_succ p)) hq1, hq2⟩
    · rw [List.chain'_cons']
      refine ⟨?_, hchain⟩
      intro b hb
      have hbm : b ∈ rest := by
        cases rest with
        | nil => simp at hb
        | cons x xs =>
          simp only [List.head?_cons, Option.mem_def, Option.some.injEq] at hb
          subst hb
          exact List.mem_cons_self _ _
      exact Nat.lt_of_succ_le (hmem b hbm).1

/--
**C5.** For every `count` and `portBase` on which `allocatePorts` succeeds,
it returns exactly `count` ports, strictly increasing (hence distinct),
each reported bindable by the probe oracle; the spec's concrete instance —
`allocate(5, 19100, ...)` with 19101 and 19103 already bound — returns
exactly `[19100, 19102, 19104, 19105, 19106]`; and when no bindable port
exists in a slot's 100-attempt probe window the allocation fails with a
`PortError` (the probe also aborts rather than probing beyond port 65535).
-/
theorem c5_allocatePorts_spec (avail : Nat → Bool) (count portBase : Nat)
    (ports : List Nat) (skips : List (Nat × Nat))
    (h : allocatePorts avail count portBase = .ok (ports, skips)) :
    ports.length = count ∧ List.Chain' (· < ·) ports ∧ ports.Nodup ∧
      (∀ p ∈ ports, avail p = true) ∧
      allocatePorts (fun p => !(p == 19101 || p == 19103)) 5 19100 =
        .ok ([19100, 19102, 19104, 19105, 19106], [(19101, 19102), (19103, 19104)]) ∧
      (∀ base, (∀ i, i < 100 → avail (base + i) = false) →
        ∃ e, allocatePorts avail (count + 1) base = .error e) := by
  obtain ⟨hlen, hmem, hchain⟩ := allocatePorts_ok_facts avail count portBase ports skips h
  refine ⟨hlen, hchain, ?_, fun p hp => (hmem p hp).2, by rfl, ?_⟩
  · exact List.Pairwise.imp (fun hlt => Nat.ne_of_lt hlt)
      (List.chain'_iff_pairwise.mp hchain)
  · intro base hfalse
    obtain ⟨e, he⟩ := findAvailPortAux_all_false avail 100 base hfalse
    exact ⟨e, allocatePorts_succ_of_error avail count base e he⟩

/-- **C5 witness**: the theorem applied to the spec's concrete instance. -/
theorem c5_witness : ([19100, 19102, 19104, 19105, 19106] : List Nat).length = 5 :=
  (c5_allocatePorts_spec (fun p => !(p == 19101 || p == 19103)) 5 19100
    [19100, 19102, 19104, 19105, 19106] [(19101, 19102), (19103, 19104)] (by rfl)).1

/--
**C6 counterexample.** With ports 19100 and 19101 both unavailable and
19102 free, allocating one port probes and rejects *two* ports but the
`onPortSkipped` callback fires only *once*, carrying `(19100, 19102)` —
not once per skipped port as the claim states (which would require the
two invocations `(19100, 19102)` and `(19101, 19102)`).
-/
theorem c6_counterexample :
    allocatePorts (fun p => !(p == 19100 || p == 19101)) 1 19100 =
        .ok ([19102], [(19100, 19102)]) ∧
      (fun p : Nat => !(p == 19100 || p == 19101)) 19100 = false ∧
      (fun p : Nat => !(p == 19100 || p == 19101)) 19101 = false ∧
      ([(19100, 19102)] : List (Nat × Nat)).length ≠ 2 := by
  refine ⟨by rfl, by rfl, by rfl, by decide⟩

/--
**C6 amended.** During one allocation call, the `onSkip` callback fires
exactly once per slot whose accepted port differs from that slot's starting
cursor, carrying `(cursorStart, acceptedPort)` — ports probed and rejected
beyond a slot's first do not trigger additional invocations.  Every
invocation's first component was indeed probed and found unbindable, and
its second component is one of the returned ports.
-/
theorem c6_skip_callbacks (avail : Nat → Bool) :
    ∀ (count base : Nat) (ports : List Nat) (skips : List (Nat × Nat)),
      allocatePorts avail count base = .ok (ports, skips) →
      skips = expectedSkips base ports ∧
        ∀ sk ∈ skips, avail sk.1 = false ∧ sk.2 ∈ ports := by
  intro count
  induction count with
  | zero =>
    intro base ports skips h
    simp only [allocatePorts, Except.ok.injEq, Prod.mk.injEq] at h
    obtain ⟨h1, h2⟩ := h
    subst h1; subst h2
    exact ⟨rfl, by simp⟩
  | succ n ih =>
    intro base ports skips h
    obtain ⟨p, rest, sk, hf, hr, hports, hskips⟩ :=
      allocatePorts_succ_inv avail n base ports skips h
    subst hports; subst hskips
    obtain ⟨ihs, ihm⟩ := ih (p + 1) rest sk hr
    constructor
    · rw [ihs]
      simp only [expectedSkips, slotCursors, List.zip_cons_cons, List.filter_cons]
      by_cases hpb : p = base
      · simp [hpb]
      · have hbp : base ≠ p := fun he => hpb he.symm
        simp [hpb, hbp]
    · intro sk0 hsk0
      rcases List.mem_append.mp hsk0 with hin | hin
      · by_cases hpb : p = base
        · simp [hpb] at hin
        · simp only [if_pos hpb, List.mem_singleton] at hin
          subst hin
          exact ⟨findAvailPortAux_skipped avail 100 base p hf hpb,
            List.mem_cons_self _ _⟩
      · obtain ⟨h1, h2⟩ := ihm sk0 hin
        exact ⟨h1, List.mem_cons_of_mem _ h2⟩

/-- **C6 amended, witness**: at the counterexample input the single
invocation is exactly the slot's `(cursorStart, acceptedPort)` pair. -/
theorem c6_witness :
    ([(19100, 19102)] : List (Nat × Nat)) = expectedSkips 19100 [19102] :=
  ((c6_skip_callbacks (fun p => !(p == 19100 || p == 19101)) 1 19100
    [19102] [(19100, 19102)]) (by rfl)).1

/-! ## Command builder facts -/

theorem string_mk_data (s : String) : String.mk s.data = s := by
  cases s
  rfl

theorem unescape_escape (cs : List Char) : unescapeChars (escapeChars cs) = cs := by
  induction cs with
  | nil => rfl
  | cons c rest ih =>
    by_cases hc : c = '"' ∨ c = '\\'
    · rw [escapeChars, if_pos hc]
      conv_lhs => rw [unescapeChars.eq_def]
      simp [ih]
    · have h2 : ¬ c = '\\' := fun h => hc (Or.inr h)
      rw [escapeChars, if_neg hc]
      conv_lhs => rw [unescapeChars.eq_def]
      simp [h2, ih]

/--
**C9 counterexample.** The argument `a~b` is not `~`-prefixed and contains
no whitespace, quote, or backslash, so per the claim it must appear bare
and unmodified; but since it *contains* `~` the code expands it, resolving
it against the working directory: with home `/home/u` and cwd `/w`,
`buildStdioCommand("cmd", ["a~b"])` yields `cmd /w/a~b`, not `cmd a~b`.
-/
theorem c9_counterexample :
    buildStdioCommand "/home/u" "/w" "cmd" ["a~b"] = "cmd /w/a~b" ∧
      ("a~b" : String).data.any isSpecialChar = false ∧
      strStartsWith "a~b" "~/" = false ∧
      ("cmd /w/a~b" : String) ≠ "cmd a~b" := by
  refine ⟨by rfl, by rfl, by rfl, by decide⟩

/--
**C9 amended.** `buildStdioCommand` expands every argument *containing*
`~` anywhere (a `~/`-prefixed argument against the home directory, any
other `~`-containing argument resolved against the working directory) and
joins command and arguments with minimal shell-safe quoting: a part with
whitespace, a quote, or a backslash is wrapped in double quotes with `"`
and `\` backslash-escaped (losslessly — unquoting recovers the part), and
a part with none of those characters and no `~` appears bare and
unmodified.
-/
theorem c9_quoting_and_expansion (home cwd command : String) (args : List String) :
    buildStdioCommand home cwd command args =
        String.intercalate " "
          ((command :: args.map (fun a =>
            if strContainsChar a '~' then expandPath home cwd a else a)).map quoteArg) ∧
      (∀ part : String, part.data.any isSpecialChar = false → quoteArg part = part) ∧
      (∀ part : String, unquoteArg (quoteArg part) = part) ∧
      (∀ p : String, strStartsWith p "~/" = true →
        strStartsWith (strDrop p 2) "/" = false →
        expandPath home cwd p = home ++ "/" ++ strDrop p 2) := by
  refine ⟨rfl, ?_, ?_, ?_⟩
  · intro part h
    rw [quoteArg, if_neg (by simp [h])]
  · intro part
    by_cases h : part.data.any isSpecialChar
    · rw [quoteArg, if_pos h]
      rw [unquoteArg]
      have hdata : ("\"" ++ String.mk (escapeChars part.data) ++ "\"").data =
          '"' :: (escapeChars part.data ++ ['"']) := by
        simp [String.data_append]
      rw [hdata]
      simp [List.getLast?_concat, List.dropLast_concat, unescape_escape, string_mk_data]
    · rw [quoteArg, if_neg h]
      rw [unquoteArg]
      cases hd : part.data with
      | nil => rfl
      | cons c rest =>
        have hcq : isSpecialChar c = false := by
          have h' : part.data.any isSpecialChar = false := by simpa using h
          rw [List.any_eq_false] at h'
          simpa using h' c (by rw [hd]; exact List.mem_cons_self _ _)
        have hc : ¬ c = '"' := by
          intro he
          subst he
          simp [isSpecialChar] at hcq
        simp [hc]
  · intro p h1 h2
    rw [expandPath, if_pos h1, pathResolve, if_neg (by simp [h2])]

/-- **C9 amended, witness**: quoting is lossless on a concrete part with
spaces, quotes and backslashes, and a concrete `~/` argument resolves
against the home directory. -/
theorem c9_witness :
    unquoteArg (quoteArg "a \"b\" \\ c") = "a \"b\" \\ c" ∧
      expandPath "/home/u" "/w" "~/x" = "/home/u" ++ "/" ++ strDrop "~/x" 2 :=
  ⟨(c9_quoting_and_expansion "/home/u" "/w" "cmd" []).2.2.1 "a \"b\" \\ c",
   (c9_quoting_and_expansion "/home/u" "/w" "cmd" []).2.2.2 "~/x" (by rfl) (by rfl)⟩

/-! ## Memory-limit handling (C10) -/

/--
**C10.** When a stdio service's `resourceLimits.maxMemory` is present but
evaluates to zero (the number `0` or the string `"0"`) or fails to parse,
`startServers` omits `max_memory_restart` from the pm2 start options
entirely — the start call is still issued, with no memory ceiling — rather
than failing or honoring the literal zero.
-/
theorem c10_zero_memory_omitted (home cwd pfx : String) (st : List ProcRecord)
    (s : NamedStdioServer) (lim : MemLimit)
    (hmm : s.resourceLimits.maxMemory = some lim)
    (hz : parseMemoryLimit lim = some 0 ∨ parseMemoryLimit lim = none) :
    (startOptionsFor home cwd pfx s).max_memory_restart = none ∧
      (∀ o, SupCall.start o ∈ (processOne home cwd pfx st s).calls →
        o.max_memory_restart = none) ∧
      parseMemoryLimit (.num 0) = some 0 ∧ parseMemoryLimit (.str "0") = some 0 ∧
      parseMemoryLimit (.str "abc") = none := by
  have hopt : maxMemoryRestart s.resourceLimits = none := by
    rw [maxMemoryRestart, hmm]
    rcases hz with h | h <;> simp [h]
  have hso : (startOptionsFor home cwd pfx s).max_memory_restart = none := by
    simp [startOptionsFor, hopt]
  refine ⟨hso, ?_, by rfl, by rfl, by rfl⟩
  intro o ho
  rw [processOne] at ho
  split at ho
  · simp at ho
  · simp only [List.mem_cons, List.mem_singleton] at ho
    rcases ho with ho | ho
    · cases ho
    · rcases ho with ho | ho
      · rw [SupCall.start.injEq] at ho
        rw [ho]
        exact hso
      · simp at ho

/-- **C10 witness**: a concrete service with `maxMemory = "0"` gets no
memory ceiling in its start options. -/
theorem c10_witness :
    (startOptionsFor "/h" "/w" "mcp-compose-"
      { name := "x", command := "cmd", internalPort := 19100,
        resourceLimits := { maxMemory := some (.str "0") } }).max_memory_restart =
      none :=
  (c10_zero_memory_omitted "/h" "/w" "mcp-compose-" []
    { name := "x", command := "cmd", internalPort := 19100,
      resourceLimits := { maxMemory := some (.str "0") } }
    (.str "0") rfl (Or.inl (by rfl))).1

/-! ## Idempotent delete / removal (C8) -/

theorem removeNames_removed (toRemove : List String) :
    ∀ (m : List (String × ClaudeServerConfig)), toRemove.Nodup →
      (removeNames m toRemove).2 =
        toRemove.filter (fun n => (lookup m n).isSome) := by
  induction toRemove with
  | nil =>
    intro m _
    rfl
  | cons n rest ih =>
    intro m hnd
    obtain ⟨hn, hrest⟩ := List.nodup_cons.mp hnd
    rw [removeNames, List.filter_cons]
    by_cases hp : (lookup m n).isSome
    · rw [if_pos hp, if_pos (by simpa using hp)]
      simp only [List.cons.injEq, true_and]
      rw [ih (removeKey m n) hrest]
      apply List.filter_congr
      intro x hx
      have hxn : x ≠ n := fun he => hn (he ▸ hx)
      rw [lookup_removeKey_ne m n x hxn]
    · rw [if_neg hp, if_neg (by simpa using hp)]
      exact ih m hrest

/--
**C8.** Deleting a supervised process the supervisor reports as "not
found" resolves as success (only other delete errors propagate); the
remove operation on the client-config file lists in `removed` exactly the
names of `toRemove` that were present in the file — absent names are
silently skipped, never an error — and a missing client-config file is a
no-op success with an empty `removed` list.
-/
theorem c8_idempotent_delete (config : NormalizedConfig) (names : Option (List String))
    (msg : String) (existingConfig : ClaudeConfig)
    (m : List (String × ClaudeServerConfig))
    (hm : existingConfig.mcpServers = some m)
    (hnd : (names.getD (config.mcpServers.map Prod.fst)).Nodup) :
    pm2Delete none = .ok () ∧
      (strIncludes msg "not found" = true → pm2Delete (some msg) = .ok ()) ∧
      (strIncludes msg "not found" = false → pm2Delete (some msg) = .error msg) ∧
      removeFromClaudeConfig none config names = { newFile := none, removed := [] } ∧
      (removeFromClaudeConfig (some existingConfig) config names).removed =
        (names.getD (config.mcpServers.map Prod.fst)).filter
          (fun n => (lookup m n).isSome) := by
  refine ⟨rfl, ?_, ?_, rfl, ?_⟩
  · intro h
    rw [pm2Delete, if_pos h]
  · intro h
    rw [pm2Delete, if_neg (by simp [h])]
  · rw [removeFromClaudeConfig, hm]
    exact removeNames_removed _ m hnd

/-- **C8 witness**: concrete instance — removing `svc` (present) and
`ghost` (absent) from a file containing `svc` and `foreign` removes
exactly `svc`; on a missing file nothing is removed. -/
theorem c8_witness :
    (removeFromClaudeConfig
        (some { otherKeys := [("other", "stuff")],
                mcpServers := some [("svc", { type := "http", url := "http://old" }),
                                    ("foreign", { type := "sse", url := "http://f" })] })
        { settings := DEFAULT_SETTINGS, mcpServers := [] }
        (some ["svc", "ghost"])).removed = ["svc"] := by
  have h := (c8_idempotent_delete
    { settings := DEFAULT_SETTINGS, mcpServers := [] } (some ["svc", "ghost"]) ""
    { otherKeys := [("other", "stuff")],
      mcpServers := some [("svc", { type := "http", url := "http://old" }),
                          ("foreign", { type := "sse", url := "http://f" })] }
    [("svc", { type := "http", url := "http://old" }),
     ("foreign", { type := "sse", url := "http://f" })]
    rfl (by decide)).2.2.2.2
  rw [h]
  rfl

/-! ## Config normalizer and port assignment (C3) -/

theorem normalizeServer_stdio_port (name : String) (server : RawServer)
    (ip : Nat) (settings : Settings) (c : String) (a : List String)
    (e : List (String × String)) (port : Nat) (lvl : String)
    (lim : ResourceLimits)
    (h : normalizeServer name server ip settings = .ok (.stdio c a e port lvl lim)) :
    port = ip := by
  rw [normalizeServer] at h
  repeat' split at h
  all_goals simp_all

theorem normalizeEntries_ports (settings : Settings) :
    ∀ (entries : List (String × RawServer)) (k : Nat)
      (out : List (String × NormalizedServer)),
      normalizeEntries settings entries k = .ok out →
      stdioPortsOf out =
        List.range' (settings.portBase + k) (stdioPortsOf out).length := by
  intro entries
  induction entries with
  | nil =>
    intro k out h
    simp only [normalizeEntries, Except.ok.injEq] at h
    subst h
    rfl
  | cons ent rest ih =>
    obtain ⟨name, server⟩ := ent
    intro k out h
    rw [normalizeEntries] at h
    by_cases hd : server.disabled = true
    · rw [if_pos hd] at h
      exact ih k out h
    · rw [if_neg hd] at h
      cases hn : normalizeServer name server (settings.portBase + k) settings with
      | error e2 =>
        rw [hn] at h
        simp [bind, Except.bind] at h
      | ok normalized =>
        rw [hn] at h
        simp only [bind, Except.bind] at h
        cases normalized with
        | stdio c a e port lvl lim =>
          have hport : port = settings.portBase + k :=
            normalizeServer_stdio_port name server _ settings c a e port lvl lim hn
          simp only [ite_true] at h
          cases ht : normalizeEntries settings rest (k + 1) with
          | error e2 =>
            rw [ht] at h
            simp at h
          | ok tail =>
            rw [ht] at h
            simp only [Except.ok.injEq] at h
            subst h
            have htail := ih (k + 1) tail ht
            simp only [stdioPortsOf, List.filterMap_cons] at htail ⊢
            simp only [List.length_cons]
            rw [List.range'_succ]
            have hk : settings.portBase + k + 1 = settings.portBase + (k + 1) := by omega
            rw [hport, hk]
            rw [← htail]
        | remote ty url =>
          simp only [Bool.false_eq_true, ite_false] at h
          cases ht : normalizeEntries settings rest k with
          | error e2 =>
            rw [ht] at h
            simp at h
          | ok tail =>
            rw [ht] at h
            simp only [Except.ok.injEq] at h
            subst h
            have htail := ih k tail ht
            simpa [stdioPortsOf, List.filterMap_cons] using htail

/--
**C3 counterexample.** After `normalizeConfig` returns, a stdio service's
`internalPort` is *not* unset/pending: two enabled stdio services in a raw
config with default settings come out with the concrete internal ports
19100 and 19101 (`portBase + 0`, `portBase + 1`) already assigned by the
normalizer.
-/
theorem c3_counterexample :
    (normalizeConfig "/h" "/w"
        { mcpServers := [("a", { command := some "cmd" }),
                         ("b", { command := some "c2" })] }).map
      (fun out => stdioPortsOf out.mcpServers) = .ok [19100, 19101] ∧
    ([19100, 19101] : List Nat) ≠ [] := ⟨by rfl, by decide⟩

/--
**C3 amended.** `normalizeConfig` assigns each non-disabled stdio service
a *provisional* `internalPort` — the consecutive values `portBase`,
`portBase + 1`, … in iteration order over the stdio entries; the bindable
ports actually used are chosen only at execution time for the services
being started (`allocatePorts` in `up`), and `serversWithPorts` then
overwrites `internalPort` with the allocated ports, so `down`/`status`/
`logs` never probe ports.
-/
theorem c3_normalizer_assigns_sequential_ports (home cwd : String) (raw : RawConfig)
    (out : NormalizedConfig) (h : normalizeConfig home cwd raw = .ok out) :
    stdioPortsOf out.mcpServers =
        List.range' out.settings.portBase (stdioPortsOf out.mcpServers).length ∧
      ∀ (servers : List NamedStdioServer) (ports : List Nat),
        servers.length = ports.length →
        (serversWithPorts servers ports).map NamedStdioServer.internalPort = ports := by
  constructor
  · rw [normalizeConfig] at h
    simp only [bind, Except.bind] at h
    cases he : normalizeEntries
        { mergeSettings DEFAULT_SETTINGS raw.settings with
          claudeConfigPath :=
            expandPath home cwd (mergeSettings DEFAULT_SETTINGS raw.settings).claudeConfigPath }
        raw.mcpServers 0 with
    | error e =>
      rw [he] at h
      simp at h
    | ok servers =>
      rw [he] at h
      simp only [Except.ok.injEq] at h
      subst h
      have := normalizeEntries_ports _ raw.mcpServers 0 servers he
      simpa using this
  · intro servers ports
    induction servers generalizing ports with
    | nil =>
      intro hlen
      cases ports with
      | nil => rfl
      | cons p ps => cases hlen
    | cons s rest ih =>
      intro hlen
      cases ports with
      | nil => cases hlen
      | cons p ps =>
        simp only [serversWithPorts, List.zipWith_cons_cons, List.map_cons] at ih ⊢
        rw [ih ps (by simpa using hlen)]

/-- **C3 amended, witness**: the concrete two-service config gets the
consecutive provisional ports `[19100, 19101]`, and a concrete allocation
result overwrites them. -/
theorem c3_witness :
    (serversWithPorts
        [{ name := "a", command := "cmd", internalPort := 19100 },
         { name := "b", command := "c2", internalPort := 19101 }]
        [19100, 19102]).map NamedStdioServer.internalPort = [19100, 19102] :=
  (c3_normalizer_assigns_sequential_ports "/h" "/w"
      { mcpServers := [("a", { command := some "cmd" }),
                       ("b", { command := some "c2" })] }
      { settings := { portBase := 19100, claudeConfigPath := "/h/.mcp.json",
                      logLevel := "info", processPrefix := "mcp-compose-" },
        mcpServers :=
          [("a", .stdio "cmd" [] [] 19100 "info" DEFAULT_RESOURCE_LIMITS),
           ("b", .stdio "c2" [] [] 19101 "info" DEFAULT_RESOURCE_LIMITS)] }
      (by rfl)).2
    [{ name := "a", command := "cmd", internalPort := 19100 },
     { name := "b", command := "c2", internalPort := 19101 }]
    [19100, 19102] (by rfl)

/-! ## Reconciler facts (C1, C2) -/

theorem zip_any_ne_eq_false_iff :
    ∀ (l1 l2 : List String), l1.length = l2.length →
      ((((l1.zip l2).any fun ab => ab.1 ≠ ab.2)) = false ↔ l1 = l2)
  | [], [], _ => by simp
  | [], _ :: _, h => by cases h
  | _ :: _, [], h => by cases h
  | a :: t1, b :: t2, h => by
    have ih := zip_any_ne_eq_false_iff t1 t2 (by simpa using h)
    simp only [List.zip_cons_cons, List.any_cons, Bool.or_eq_false_iff]
    constructor
    · rintro ⟨h1, h2⟩
      have hab : a = b := by simpa using h1
      rw [hab, ih.mp h2]
    · intro he
      injection he with he1 he2
      subst he1
      exact ⟨by simp, ih.mpr he2⟩

theorem isProcessConfigMatch_iff (p : ProcRecord) (script : String)
    (args : List String) (env : List (String × String)) :
    isProcessConfigMatch p script args env = true ↔
      ∃ e, p.pm2_env = some e ∧ e.status = some "online" ∧
        e.pm_exec_path = some script ∧ e.args.getD [] = args ∧
        ∀ kv ∈ env, kv.1 ≠ MCP_COMPOSE_MARKER →
          lookup (e.env.getD []) kv.1 = some kv.2 := by
  cases hp : p.pm2_env with
  | none => simp [isProcessConfigMatch, hp]
  | some e =>
    simp only [isProcessConfigMatch, hp, Option.some.injEq]
    constructor
    · intro h
      have h1 : e.status = some "online" := by
        by_contra hc
        rw [if_pos hc] at h
        simp at h
      rw [if_neg (not_not_intro h1)] at h
      have h2 : e.pm_exec_path = some script := by
        by_contra hc
        rw [if_pos hc] at h
        simp at h
      rw [if_neg (not_not_intro h2)] at h
      have h3 : (e.args.getD []).length = args.length := by
        by_contra hc
        rw [if_pos hc] at h
        simp at h
      rw [if_neg (not_not_intro h3)] at h
      rcases Bool.eq_false_or_eq_true
          (((e.args.getD []).zip args).any fun ab => ab.1 ≠ ab.2) with h4 | h4
      · rw [if_pos h4] at h
        simp at h
      · rw [if_neg (by rw [h4]; decide)] at h
        have hargs : e.args.getD [] = args := (zip_any_ne_eq_false_iff _ _ h3).mp h4
        refine ⟨e, rfl, h1, h2, hargs, ?_⟩
        intro kv hkv hne
        have hall := (List.all_eq_true.mp h) kv hkv
        rcases (Bool.or_eq_true _ _).mp hall with hm | hl
        · exact absurd (by simpa using hm) hne
        · simpa using hl
    · rintro ⟨e', he', hst, hpath, hargs, henv⟩
      obtain rfl : e = e' := he'
      rw [if_neg (not_not_intro hst), if_neg (not_not_intro hpath),
        if_neg (not_not_intro (by rw [hargs]))]
      have h4 : (((e.args.getD []).zip args).any fun ab => ab.1 ≠ ab.2) = false :=
        (zip_any_ne_eq_false_iff _ _ (by rw [hargs])).mpr hargs
      rw [if_neg (by rw [h4]; decide)]
      refine List.all_eq_true.mpr ?_
      intro kv hkv
      refine (Bool.or_eq_true _ _).mpr ?_
      by_cases hm : kv.1 = MCP_COMPOSE_MARKER
      · exact Or.inl (by simpa using hm)
      · exact Or.inr (by simpa using henv kv hkv hm)

/--
**C1.** Per reconciliation pass, for a desired stdio service whose process
name is present among supervisor records: if the found record's
configuration matches (it is online, its executable path equals the built
script, its argument vector equals the built argv element-by-element, and
every desired environment variable's value equals the recorded one, the
identity marker excluded — the final ↔ states exactly this rule), the pass
emits only `up_to_date` and makes no supervisor call; if the record
diverges, the pass issues delete then start and emits
`recreating`/`recreated`, never `up_to_date`.
-/
theorem c1_match_noop_diverge_recreate (home cwd pfx : String)
    (st : List ProcRecord) (s : NamedStdioServer) (r : ProcRecord)
    (hfind : getRunningProcess st (getProcessName s.name pfx) = some r) :
    (isProcessConfigMatch r
        (buildSupergatewayCmd home cwd s.command s.args s.internalPort).script
        (buildSupergatewayCmd home cwd s.command s.args s.internalPort).args
        (setKey s.env MCP_COMPOSE_MARKER s.name) = true →
      processOne home cwd pfx st s =
        { state := st, calls := [],
          events := [{ type := .upToDate, server := s.name, port := s.internalPort }],
          results := [{ name := s.name, processName := getProcessName s.name pfx,
                        port := s.internalPort }] }) ∧
    (isProcessConfigMatch r
        (buildSupergatewayCmd home cwd s.command s.args s.internalPort).script
        (buildSupergatewayCmd home cwd s.command s.args s.internalPort).args
        (setKey s.env MCP_COMPOSE_MARKER s.name) = false →
      processOne home cwd pfx st s =
        { state := pm2DeleteState st (getProcessName s.name pfx) ++
            [recordOfStart (startOptionsFor home cwd pfx s)],
          calls := [.delete (getProcessName s.name pfx),
                    .start (startOptionsFor home cwd pfx s)],
          events := [{ type := .recreating, server := s.name, port := s.internalPort },
                     { type := .recreated, server := s.name, port := s.internalPort }],
          results := [{ name := s.name, processName := getProcessName s.name pfx,
                        port := s.internalPort }] } ∧
      ∀ ev ∈ (processOne home cwd pfx st s).events, ev.type ≠ .upToDate) ∧
    (isProcessConfigMatch r
        (buildSupergatewayCmd home cwd s.command s.args s.internalPort).script
        (buildSupergatewayCmd home cwd s.command s.args s.internalPort).args
        (setKey s.env MCP_COMPOSE_MARKER s.name) = true ↔
      ∃ e, r.pm2_env = some e ∧ e.status = some "online" ∧
        e.pm_exec_path =
          some (buildSupergatewayCmd home cwd s.command s.args s.internalPort).script ∧
        e.args.getD [] =
          (buildSupergatewayCmd home cwd s.command s.args s.internalPort).args ∧
        ∀ kv ∈ setKey s.env MCP_COMPOSE_MARKER s.name,
          kv.1 ≠ MCP_COMPOSE_MARKER →
          lookup (e.env.getD []) kv.1 = some kv.2) := by
  refine ⟨?_, ?_, isProcessConfigMatch_iff r _ _ _⟩
  · intro hm
    simp [processOne, hfind, hm]
  · intro hm
    constructor
    · simp [processOne, hfind, hm]
    · intro ev hev
      simp [processOne, hfind, hm] at hev
      rcases hev with hev | hev <;> rw [hev] <;> simp

/-- Concrete diverged instance for C1: supervised argv built from
`["cmd","a"]`, desired argv `["cmd","b"]`. -/
def c1Record : ProcRecord :=
  { name := some "mcp-compose-x"
    pm2_env := some
      { marker := some "x", status := some "online", pm_exec_path := some "npx",
        args := some ["-y", "supergateway@latest", "--stdio", "cmd a", "--port", "19100"],
        env := some [("__MCP_COMPOSE__", "x")] } }

/-- The desired service for the C1 concrete instance. -/
def c1Service : NamedStdioServer :=
  { name := "x", command := "cmd", args := ["b"], internalPort := 19100 }

/-- **C1 witness**: on the spec's concrete divergence instance the pass
emits `recreating` then `recreated`. -/
theorem c1_witness :
    (processOne "/h" "/w" "mcp-compose-" [c1Record] c1Service).events =
      [{ type := .recreating, server := "x", port := 19100 },
       { type := .recreated, server := "x", port := 19100 }] := by
  have h := (c1_match_noop_diverge_recreate "/h" "/w" "mcp-compose-"
    [c1Record] c1Service c1Record (by rfl)).2.1 (by decide)
  rw [h.1]
  rfl

/-- An unmarked pm2 record whose name and whole configuration collide with
the managed service `c2Service` (used by the C2 theorems only). -/
def c2UnmarkedRecord : ProcRecord :=
  { name := some "mcp-compose-x"
    pm2_env := some
      { marker := none, status := some "online", pm_exec_path := some "npx",
        args := some ["-y", "supergateway@latest", "--stdio", "cmd", "--port", "19100"],
        env := some [] } }

/-- The desired service colliding with `c2UnmarkedRecord`. -/
def c2Service : NamedStdioServer :=
  { name := "x", command := "cmd", internalPort := 19100 }

/--
**C2 counterexample.** A supervisor record named like the managed service
but *lacking* the identity marker is nonetheless treated as matching when
its configuration coincides: the pass emits `up_to_date` (NoOp) with zero
supervisor calls — not the Create action the claim requires.
(`getRunningProcess` finds records by name only, and
`isProcessConfigMatch` skips the marker key when comparing environments.)
-/
theorem c2_counterexample :
    c2UnmarkedRecord.name = some (getProcessName c2Service.name "mcp-compose-") ∧
      c2UnmarkedRecord.pm2_env.bind Pm2Env.marker = none ∧
      (processOne "/h" "/w" "mcp-compose-" [c2UnmarkedRecord] c2Service).events =
        [{ type := .upToDate, server := "x", port := 19100 }] ∧
      (processOne "/h" "/w" "mcp-compose-" [c2UnmarkedRecord] c2Service).calls = [] := by
  refine ⟨by rfl, by rfl, by rfl, by rfl⟩

/--
**C2 amended.** A supervisor record named like the managed service — with
or without the identity marker — is treated by the reconciler as an
existing process: the pass yields NoOp (`up_to_date`) when the
configuration matches and Recreate (`recreating`/`recreated`) otherwise,
and never the Create action (`starting`/`started`).  The status query is
unaffected by unmarked records: its output is computed from the
marker-bearing records alone, and a record without the marker is never
classified as managed.
-/
theorem c2_name_collision_behavior (home cwd pfx : String)
    (st : List ProcRecord) (s : NamedStdioServer) (r : ProcRecord)
    (hfind : getRunningProcess st (getProcessName s.name pfx) = some r) :
    ((processOne home cwd pfx st s).events.map Event.type = [.upToDate] ∨
      (processOne home cwd pfx st s).events.map Event.type = [.recreating, .recreated]) ∧
      (∀ ev ∈ (processOne home cwd pfx st s).events,
        ev.type ≠ .starting ∧ ev.type ≠ .started) ∧
      getStatus st = getStatus (st.filter isManagedProcess) ∧
      (r.pm2_env.bind Pm2Env.marker = none → isManagedProcess r = false) := by
  by_cases hm : isProcessConfigMatch r
      (buildSupergatewayCmd home cwd s.command s.args s.internalPort).script
      (buildSupergatewayCmd home cwd s.command s.args s.internalPort).args
      (setKey s.env MCP_COMPOSE_MARKER s.name) = true
  · refine ⟨Or.inl (by simp [processOne, hfind, hm]), ?_, ?_, ?_⟩
    · intro ev hev
      simp [processOne, hfind, hm] at hev
      rw [hev]
      exact ⟨by simp, by simp⟩
    · rw [getStatus, getStatus, List.filter_filter]
      simp
    · intro hmk
      simp [isManagedProcess, hmk]
  · rw [Bool.not_eq_true] at hm
    refine ⟨Or.inr (by simp [processOne, hfind, hm]), ?_, ?_, ?_⟩
    · intro ev hev
      simp [processOne, hfind, hm] at hev
      rcases hev with hev | hev <;> rw [hev] <;> exact ⟨by simp, by simp⟩
    · rw [getStatus, getStatus, List.filter_filter]
      simp
    · intro hmk
      simp [isManagedProcess, hmk]

/-- **C2 amended, witness**: at the unmarked-collision instance the pass
yields NoOp or Recreate (here NoOp), never Create. -/
theorem c2_witness :
    (processOne "/h" "/w" "mcp-compose-" [c2UnmarkedRecord] c2Service).events.map
        Event.type = [.upToDate] ∨
      (processOne "/h" "/w" "mcp-compose-" [c2UnmarkedRecord] c2Service).events.map
        Event.type = [.recreating, .recreated] :=
  (c2_name_collision_behavior "/h" "/w" "mcp-compose-" [c2UnmarkedRecord] c2Service
    c2UnmarkedRecord (by rfl)).1

/-! ## Client-config synchronizer facts (C7, and the sync half of C4) -/

theorem lookup_mem {α : Type} (l : List (String × α)) (k : String) (v : α)
    (h : lookup l k = some v) : (k, v) ∈ l := by
  induction l with
  | nil => cases h
  | cons kv rest ih =>
    obtain ⟨k0, w⟩ := kv
    rw [lookup] at h
    by_cases hk : k0 = k
    · rw [if_pos hk] at h
      simp only [Option.some.injEq] at h
      subst hk; subst h
      exact List.mem_cons_self _ _
    · rw [if_neg hk] at h
      exact List.mem_cons_of_mem _ (ih h)

theorem lookup_isSome_of_mem_keys {α : Type} (l : List (String × α)) (k : String)
    (h : k ∈ l.map Prod.fst) : (lookup l k).isSome = true := by
  induction l with
  | nil => cases h
  | cons kv rest ih =>
    obtain ⟨k0, w⟩ := kv
    rw [lookup]
    by_cases hk : k0 = k
    · rw [if_pos hk]; rfl
    · rw [if_neg hk]
      simp only [List.map_cons, List.mem_cons] at h
      rcases h with h | h
      · exact absurd h.symm hk
      · exact ih h

theorem setKey_of_lookup_eq {α : Type} (l : List (String × α)) (k : String) (v : α)
    (h : lookup l k = some v) : setKey l k v = l := by
  induction l with
  | nil => cases h
  | cons kv rest ih =>
    obtain ⟨k0, w⟩ := kv
    rw [lookup] at h
    by_cases hk : k0 = k
    · rw [if_pos hk] at h
      simp only [Option.some.injEq] at h
      rw [setKey, if_pos hk, hk, h]
    · rw [if_neg hk] at h
      rw [setKey, if_neg hk, ih h]

/-- The per-entry fold step of both `generateClaudeConfig` and the merge in
`syncToClaudeConfig`. -/
def setEntry {α : Type} (acc : List (String × α)) (nv : String × α) : List (String × α) :=
  setKey acc nv.1 nv.2

theorem lookup_foldl_setEntry_of_not_mem {α : Type} (pairs : List (String × α)) :
    ∀ (base : List (String × α)) (k : String), k ∉ pairs.map Prod.fst →
      lookup (pairs.foldl setEntry base) k = lookup base k := by
  induction pairs with
  | nil => intro base k _; rfl
  | cons nv rest ih =>
    intro base k h
    simp only [List.map_cons, List.mem_cons, not_or] at h
    rw [List.foldl_cons]
    rw [ih (setEntry base nv) k h.2]
    exact lookup_setKey_ne base nv.1 k nv.2 h.1

theorem lookup_foldl_setEntry_self {α : Type} (pairs : List (String × α)) :
    ∀ (base : List (String × α)) (k : String) (v : α),
      (pairs.map Prod.fst).Nodup → (k, v) ∈ pairs →
      lookup (pairs.foldl setEntry base) k = some v := by
  induction pairs with
  | nil =>
    intro _ _ _ _ hm
    cases hm
  | cons nv rest ih =>
    intro base k v hnd hm
    obtain ⟨hn, hrest⟩ := List.nodup_cons.mp hnd
    rw [List.foldl_cons]
    rcases List.mem_cons.mp hm with rfl | hm'
    · rw [lookup_foldl_setEntry_of_not_mem rest (setEntry base (k, v)) k hn]
      exact lookup_setKey_self base k v
    · exact ih (setEntry base nv) k v hrest hm'

theorem foldl_setEntry_keys_nodup {α : Type} (pairs : List (String × α)) :
    ∀ (base : List (String × α)), ((base.map Prod.fst).Nodup) →
      (((pairs.foldl setEntry base).map Prod.fst)).Nodup := by
  induction pairs with
  | nil => intro base h; exact h
  | cons nv rest ih =>
    intro base h
    rw [List.foldl_cons]
    exact ih (setEntry base nv) (setKey_keys_nodup base nv.1 nv.2 h)

theorem mem_keys_setKey {α : Type} (l : List (String × α)) (key k : String) (v : α)
    (h : k ∈ l.map Prod.fst) : k ∈ (setKey l key v).map Prod.fst := by
  by_cases hm : key ∈ l.map Prod.fst
  · rw [setKey_keys_of_mem l key v hm]; exact h
  · rw [setKey_keys_of_not_mem l key v hm]
    exact List.mem_append_left _ h

theorem mem_keys_foldl_setEntry_of_base {α : Type} (pairs : List (String × α)) :
    ∀ (base : List (String × α)) (k : String), k ∈ base.map Prod.fst →
      k ∈ (pairs.foldl setEntry base).map Prod.fst := by
  induction pairs with
  | nil => intro base k h; exact h
  | cons nv rest ih =>
    intro base k h
    rw [List.foldl_cons]
    exact ih (setEntry base nv) k (mem_keys_setKey base nv.1 k nv.2 h)

theorem mem_keys_foldl_setEntry {α : Type} (pairs : List (String × α)) :
    ∀ (base : List (String × α)) (k : String), k ∈ pairs.map Prod.fst →
      k ∈ (pairs.foldl setEntry base).map Prod.fst := by
  induction pairs with
  | nil => intro base k h; cases h
  | cons nv rest ih =>
    intro base k h
    rw [List.foldl_cons]
    simp only [List.map_cons, List.mem_cons] at h
    rcases h with h | h
    · subst h
      apply mem_keys_foldl_setEntry_of_base
      by_cases hm : nv.1 ∈ base.map Prod.fst
      · rw [setEntry, setKey_keys_of_mem base nv.1 nv.2 hm]; exact hm
      · rw [setEntry, setKey_keys_of_not_mem base nv.1 nv.2 hm]
        exact List.mem_append_right _ (List.mem_singleton.mpr rfl)
    · exact ih (setEntry base nv) k h

theorem keys_foldl_setEntry_subset {α : Type} (pairs : List (String × α)) :
    ∀ (base : List (String × α)) (k : String),
      k ∈ (pairs.foldl setEntry base).map Prod.fst →
      k ∈ base.map Prod.fst ∨ k ∈ pairs.map Prod.fst := by
  induction pairs with
  | nil => intro base k h; exact Or.inl h
  | cons nv rest ih =>
    intro base k h
    rw [List.foldl_cons] at h
    rcases ih (setEntry base nv) k h with h1 | h1
    · by_cases hm : nv.1 ∈ base.map Prod.fst
      · rw [setEntry, setKey_keys_of_mem base nv.1 nv.2 hm] at h1
        exact Or.inl h1
      · rw [setEntry, setKey_keys_of_not_mem base nv.1 nv.2 hm] at h1
        rcases List.mem_append.mp h1 with h2 | h2
        · exact Or.inl h2
        · simp only [List.mem_singleton] at h2
          subst h2
          exact Or.inr (by simp)
    · exact Or.inr (by simp [h1])

theorem filter_setKey_of_pred_false {α : Type} (l : List (String × α)) (key : String)
    (v : α) (p : String × α → Bool) (hp : ∀ w, p (key, w) = false) :
    (setKey l key v).filter p = l.filter p := by
  induction l with
  | nil => simp [setKey, hp]
  | cons kv rest ih =>
    obtain ⟨k0, w⟩ := kv
    by_cases hk : k0 = key
    · subst hk
      rw [show setKey ((k0, w) :: rest) k0 v = (k0, v) :: rest by simp [setKey]]
      rw [List.filter_cons, List.filter_cons, hp v, hp w]
      simp
    · rw [show setKey ((k0, w) :: rest) key v = (k0, w) :: setKey rest key v by
        simp [setKey, hk]]
      rw [List.filter_cons, List.filter_cons, ih]

theorem filter_foldl_setEntry {α : Type} (pairs : List (String × α)) :
    ∀ (base : List (String × α)) (p : String × α → Bool),
      (∀ nv ∈ pairs, ∀ w, p (nv.1, w) = false) →
      (pairs.foldl setEntry base).filter p = base.filter p := by
  induction pairs with
  | nil => intro base p _; rfl
  | cons nv rest ih =>
    intro base p hp
    rw [List.foldl_cons]
    rw [ih (setEntry base nv) p (fun nv' h' w => hp nv' (List.mem_cons_of_mem _ h') w)]
    exact filter_setKey_of_pred_false base nv.1 nv.2 p (hp nv (List.mem_cons_self _ _))

/-- The `{protocol, url}` descriptor projected for one normalized server
(the two branches of `generateClaudeConfig`). -/
def projectServer : NormalizedServer → ClaudeServerConfig
  | .stdio _ _ _ port _ _ =>
      { type := "http", url := "http://localhost:" ++ toString port ++ "/mcp" }
  | .remote ty url => { type := ty, url := url }

theorem generateClaudeConfig_eq (servers : List (String × NormalizedServer)) :
    generateClaudeConfig servers =
      (servers.map (fun nv => (nv.1, projectServer nv.2))).foldl setEntry [] := by
  rw [generateClaudeConfig, List.foldl_map]
  congr 1
  funext acc nv
  obtain ⟨n, sv⟩ := nv
  cases sv <;> rfl

theorem generateClaudeConfig_keys_nodup (servers : List (String × NormalizedServer)) :
    ((generateClaudeConfig servers).map Prod.fst).Nodup := by
  rw [generateClaudeConfig_eq]
  exact foldl_setEntry_keys_nodup _ [] (by simp)

theorem generateClaudeConfig_keys_subset (servers : List (String × NormalizedServer))
    (k : String) (h : k ∈ (generateClaudeConfig servers).map Prod.fst) :
    k ∈ servers.map Prod.fst := by
  rw [generateClaudeConfig_eq] at h
  rcases keys_foldl_setEntry_subset _ [] k h with h1 | h1
  · cases h1
  · simpa using h1

theorem syncToClaudeConfig_mcpServers (existingFile : Option ClaudeConfig)
    (config : NormalizedConfig) :
    (syncToClaudeConfig existingFile config).mcpServers =
      some ((generateClaudeConfig config.mcpServers).foldl setEntry
        ((existingFile.getD {}).mcpServers.getD [])) := by
  rw [syncToClaudeConfig]
  congr 1

/--
**C7.** `syncToClaudeConfig` is a non-destructive merge: every top-level
key other than the managed server mapping is unchanged; the sub-list of
existing server entries whose names are *not* in the current reconciled
set is unchanged (same entries, same order); and every name in the current
set ends up bound to exactly its newly projected descriptor (which exists
for every name of the set).
-/
theorem c7_sync_non_destructive (file : ClaudeConfig) (config : NormalizedConfig) :
    (syncToClaudeConfig (some file) config).otherKeys = file.otherKeys ∧
      ((syncToClaudeConfig (some file) config).mcpServers.getD []).filter
          (fun kv => decide (kv.1 ∉ config.mcpServers.map Prod.fst)) =
        (file.mcpServers.getD []).filter
          (fun kv => decide (kv.1 ∉ config.mcpServers.map Prod.fst)) ∧
      (∀ n c, lookup (generateClaudeConfig config.mcpServers) n = some c →
        lookup ((syncToClaudeConfig (some file) config).mcpServers.getD []) n = some c) ∧
      (∀ n, n ∈ config.mcpServers.map Prod.fst →
        (lookup (generateClaudeConfig config.mcpServers) n).isSome = true) := by
  refine ⟨rfl, ?_, ?_, ?_⟩
  · rw [syncToClaudeConfig_mcpServers, Option.getD_some]
    apply filter_foldl_setEntry
    intro nv hnv w
    have hk : nv.1 ∈ config.mcpServers.map Prod.fst :=
      generateClaudeConfig_keys_subset config.mcpServers nv.1
        (List.mem_map.mpr ⟨nv, hnv, rfl⟩)
    simp [hk]
  · intro n c h
    rw [syncToClaudeConfig_mcpServers, Option.getD_some]
    exact lookup_foldl_setEntry_self _ _ n c
      (generateClaudeConfig_keys_nodup config.mcpServers) (lookup_mem _ n c h)
  · intro n hn
    apply lookup_isSome_of_mem_keys
    rw [generateClaudeConfig_eq]
    apply mem_keys_foldl_setEntry
    simpa using hn

/-- **C7 witness**: syncing a one-service set over a file holding an
unrelated entry and a stale managed entry rewrites only the managed one. -/
theorem c7_witness :
    lookup ((syncToClaudeConfig
        (some { otherKeys := [("other", "stuff")],
                mcpServers := some [("svc", { type := "http", url := "http://old" }),
                                    ("foreign", { type := "sse", url := "http://f" })] })
        { settings := DEFAULT_SETTINGS,
          mcpServers :=
            [("svc", .stdio "cmd" [] [] 19102 "info" DEFAULT_RESOURCE_LIMITS)] }).mcpServers.getD
          []) "svc" =
      some { type := "http", url := "http://localhost:19102/mcp" } :=
  (c7_sync_non_destructive
    { otherKeys := [("other", "stuff")],
      mcpServers := some [("svc", { type := "http", url := "http://old" }),
                          ("foreign", { type := "sse", url := "http://f" })] }
    { settings := DEFAULT_SETTINGS,
      mcpServers :=
        [("svc", .stdio "cmd" [] [] 19102 "info" DEFAULT_RESOURCE_LIMITS)] }).2.2.1
    "svc" { type := "http", url := "http://localhost:19102/mcp" } (by rfl)

/-! ## Reconciler idempotence (C4) -/

theorem foldl_setEntry_id {α : Type} (pairs : List (String × α)) :
    ∀ (m : List (String × α)), (∀ nv ∈ pairs, lookup m nv.1 = some nv.2) →
      pairs.foldl setEntry m = m := by
  induction pairs with
  | nil => intro m _; rfl
  | cons nv rest ih =>
    intro m h
    rw [List.foldl_cons]
    rw [show setEntry m nv = m from
      setKey_of_lookup_eq m nv.1 nv.2 (h nv (List.mem_cons_self _ _))]
    exact ih m (fun nv' h' => h nv' (List.mem_cons_of_mem _ h'))

theorem claudeConfig_eq (a b : ClaudeConfig) (h1 : a.otherKeys = b.otherKeys)
    (h2 : a.mcpServers = b.mcpServers) : a = b := by
  cases a
  cases b
  cases h1
  cases h2
  rfl

theorem syncToClaudeConfig_idempotent (file : Option ClaudeConfig)
    (config : NormalizedConfig) :
    syncToClaudeConfig (some (syncToClaudeConfig file config)) config =
      syncToClaudeConfig file config := by
  have hgen := generateClaudeConfig_keys_nodup config.mcpServers
  apply claudeConfig_eq
  · rfl
  · rw [syncToClaudeConfig_mcpServers (some (syncToClaudeConfig file config)) config,
      syncToClaudeConfig_mcpServers file config]
    simp only [Option.getD_some]
    rw [syncToClaudeConfig_mcpServers file config]
    simp only [Option.getD_some]
    congr 1
    apply foldl_setEntry_id
    intro nv hnv
    exact lookup_foldl_setEntry_self _ _ nv.1 nv.2 hgen hnv

theorem getRunningProcess_cons (p : ProcRecord) (rest : List ProcRecord) (n : String) :
    getRunningProcess (p :: rest) n =
      if p.name == some n then some p else getRunningProcess rest n := by
  simp only [getRunningProcess, List.find?]
  cases hb : (p.name == some n) <;> simp [hb]

theorem getRunningProcess_delete_self (st : List ProcRecord) (n : String) :
    getRunningProcess (pm2DeleteState st n) n = none := by
  rw [getRunningProcess, List.find?_eq_none]
  intro p hp
  have := (List.mem_filter.mp hp).2
  simp only [ne_eq, decide_not, Bool.not_eq_true', decide_eq_false_iff_not] at this
  simp [this]

theorem getRunningProcess_delete_ne (st : List ProcRecord) (n n' : String)
    (h : n ≠ n') : getRunningProcess (pm2DeleteState st n') n = getRunningProcess st n := by
  induction st with
  | nil => rfl
  | cons p rest ih =>
    by_cases hp : p.name = some n'
    · have hne : (p.name == some n) = false := by
        rw [hp]
        simp only [beq_eq_false_iff_ne, ne_eq, Option.some.injEq]
        exact fun he => h he.symm
      rw [show pm2DeleteState (p :: rest) n' = pm2DeleteState rest n' from by
        simp [pm2DeleteState, List.filter_cons, hp]]
      rw [ih, getRunningProcess_cons, hne]
      simp
    · rw [show pm2DeleteState (p :: rest) n' = p :: pm2DeleteState rest n' from by
        simp [pm2DeleteState, List.filter_cons, hp]]
      rw [getRunningProcess_cons, getRunningProcess_cons, ih]

theorem getRunningProcess_append_of_some (st l2 : List ProcRecord) (n : String)
    (r : ProcRecord) (h : getRunningProcess st n = some r) :
    getRunningProcess (st ++ l2) n = some r := by
  induction st with
  | nil => cases h
  | cons p rest ih =>
    rw [getRunningProcess_cons] at h
    rw [List.cons_append, getRunningProcess_cons]
    by_cases hb : (p.name == some n) = true
    · rw [if_pos hb] at h ⊢
      exact h
    · rw [if_neg hb] at h ⊢
      exact ih h

theorem getRunningProcess_append_single_of_none (st : List ProcRecord)
    (r : ProcRecord) (n : String) (h : getRunningProcess st n = none)
    (hr : r.name = some n) : getRunningProcess (st ++ [r]) n = some r := by
  induction st with
  | nil =>
    rw [List.nil_append, getRunningProcess_cons, if_pos (by simp [hr])]
  | cons p rest ih =>
    rw [getRunningProcess_cons] at h
    rw [List.cons_append, getRunningProcess_cons]
    by_cases hb : (p.name == some n) = true
    · rw [if_pos hb] at h
      cases h
    · rw [if_neg hb] at h
      rw [if_neg hb]
      exact ih h

theorem recordOfStart_matches (o : StartOptions)
    (hnd : (o.env.map Prod.fst).Nodup) :
    isProcessConfigMatch (recordOfStart o) o.script o.args o.env = true := by
  rw [isProcessConfigMatch_iff]
  refine ⟨_, rfl, rfl, rfl, rfl, ?_⟩
  intro kv hkv _
  exact lookup_self o.env kv.1 kv.2 hnd (by simpa using hkv)

/-- The service is already supervised with exactly the configuration the
pass would build for it (the NoOp criterion of one reconciliation step). -/
def serverUpToDate (home cwd pfx : String) (st : List ProcRecord)
    (s : NamedStdioServer) : Prop :=
  ∃ r, getRunningProcess st (getProcessName s.name pfx) = some r ∧
    isProcessConfigMatch r
      (buildSupergatewayCmd home cwd s.command s.args s.internalPort).script
      (buildSupergatewayCmd home cwd s.command s.args s.internalPort).args
      (setKey s.env MCP_COMPOSE_MARKER s.name) = true

theorem processOne_of_upToDate (home cwd pfx : String) (st : List ProcRecord)
    (s : NamedStdioServer) (h : serverUpToDate home cwd pfx st s) :
    processOne home cwd pfx st s =
      { state := st, calls := [],
        events := [{ type := .upToDate, server := s.name, port := s.internalPort }],
        results := [{ name := s.name, processName := getProcessName s.name pfx,
                      port := s.internalPort }] } := by
  obtain ⟨r, hfind, hm⟩ := h
  simp [processOne, hfind, hm]

theorem startOptionsFor_env (home cwd pfx : String) (s : NamedStdioServer) :
    (startOptionsFor home cwd pfx s).env = setKey s.env MCP_COMPOSE_MARKER s.name := rfl

theorem processOne_establishes (home cwd pfx : String) (st : List ProcRecord)
    (s : NamedStdioServer) (hnd : (s.env.map Prod.fst).Nodup) :
    serverUpToDate home cwd pfx (processOne home cwd pfx st s).state s := by
  by_cases hup : serverUpToDate home cwd pfx st s
  · rw [processOne_of_upToDate home cwd pfx st s hup]
    exact hup
  · have hstate : (processOne home cwd pfx st s).state =
        pm2DeleteState st (getProcessName s.name pfx) ++
          [recordOfStart (startOptionsFor home cwd pfx s)] := by
      rw [processOne]
      cases hfind : getRunningProcess st (getProcessName s.name pfx) with
      | none => simp [hfind]
      | some r =>
        have hm : isProcessConfigMatch r
            (buildSupergatewayCmd home cwd s.command s.args s.internalPort).script
            (buildSupergatewayCmd home cwd s.command s.args s.internalPort).args
            (setKey s.env MCP_COMPOSE_MARKER s.name) = false := by
          rcases Bool.eq_false_or_eq_true (isProcessConfigMatch r
            (buildSupergatewayCmd home cwd s.command s.args s.internalPort).script
            (buildSupergatewayCmd home cwd s.command s.args s.internalPort).args
            (setKey s.env MCP_COMPOSE_MARKER s.name)) with h | h
          · exact absurd ⟨r, hfind, h⟩ hup
          · exact h
        simp [hfind, hm]
    rw [hstate]
    refine ⟨recordOfStart (startOptionsFor home cwd pfx s), ?_, ?_⟩
    · apply getRunningProcess_append_single_of_none
      · exact getRunningProcess_delete_self st (getProcessName s.name pfx)
      · rfl
    · have := recordOfStart_matches (startOptionsFor home cwd pfx s)
        (by rw [startOptionsFor_env]; exact setKey_keys_nodup s.env _ s.name hnd)
      exact this

theorem string_append_left_cancel (a b c : String) (h : a ++ b = a ++ c) : b = c := by
  have hd : (a ++ b).data = (a ++ c).data := by rw [h]
  rw [String.data_append, String.data_append] at hd
  exact String.ext (List.append_cancel_left hd)

theorem processOne_preserves (home cwd pfx : String) (st : List ProcRecord)
    (s s' : NamedStdioServer) (hne : s.name ≠ s'.name)
    (h : serverUpToDate home cwd pfx st s) :
    serverUpToDate home cwd pfx (processOne home cwd pfx st s').state s := by
  obtain ⟨r, hfind, hm⟩ := h
  have hpn : getProcessName s.name pfx ≠ getProcessName s'.name pfx := by
    intro he
    exact hne (string_append_left_cancel pfx s.name s'.name he)
  rw [processOne]
  cases hfind' : getRunningProcess st (getProcessName s'.name pfx) with
  | none =>
    simp only [hfind']
    refine ⟨r, ?_, hm⟩
    · have h1 := getRunningProcess_delete_ne st (getProcessName s.name pfx)
        (getProcessName s'.name pfx) hpn
      rw [hfind] at h1
      exact getRunningProcess_append_of_some _ _ _ r h1
  | some r' =>
    by_cases hm' : isProcessConfigMatch r'
        (buildSupergatewayCmd home cwd s'.command s'.args s'.internalPort).script
        (buildSupergatewayCmd home cwd s'.command s'.args s'.internalPort).args
        (setKey s'.env MCP_COMPOSE_MARKER s'.name) = true
    · simp only [hfind', hm']
      exact ⟨r, by simpa using hfind, hm⟩
    · rw [Bool.not_eq_true] at hm'
      simp only [hfind', hm']
      refine ⟨r, ?_, hm⟩
      have h1 := getRunningProcess_delete_ne st (getProcessName s.name pfx)
        (getProcessName s'.name pfx) hpn
      rw [hfind] at h1
      simp only [Bool.false_eq_true, if_false]
      exact getRunningProcess_append_of_some _ _ _ r h1

theorem startServers_preserves (home cwd pfx : String) :
    ∀ (servers : List NamedStdioServer) (st : List ProcRecord) (s : NamedStdioServer),
      s.name ∉ servers.map NamedStdioServer.name →
      serverUpToDate home cwd pfx st s →
      serverUpToDate home cwd pfx (startServers home cwd servers pfx st).state s := by
  intro servers
  induction servers with
  | nil => intro st s _ h; exact h
  | cons s0 rest ih =>
    intro st s hmem h
    simp only [List.map_cons, List.mem_cons, not_or] at hmem
    rw [startServers]
    exact ih _ s hmem.2 (processOne_preserves home cwd pfx st s s0 hmem.1 h)

theorem startServers_establishes (home cwd pfx : String) :
    ∀ (servers : List NamedStdioServer) (st : List ProcRecord),
      (servers.map NamedStdioServer.name).Nodup →
      (∀ s ∈ servers, (s.env.map Prod.fst).Nodup) →
      ∀ s ∈ servers,
        serverUpToDate home cwd pfx (startServers home cwd servers pfx st).state s := by
  intro servers
  induction servers with
  | nil =>
    intro st _ _ s hs
    cases hs
  | cons s0 rest ih =>
    intro st hnd henv s hs
    obtain ⟨hn0, hrest⟩ := List.nodup_cons.mp hnd
    rw [startServers]
    rcases List.mem_cons.mp hs with rfl | hs'
    · exact startServers_preserves home cwd pfx rest _ s hn0
        (processOne_establishes home cwd pfx st s (henv s (List.mem_cons_self _ _)))
    · exact ih _ hrest (fun s' h' => henv s' (List.mem_cons_of_mem _ h')) s hs'

theorem startServers_of_all_upToDate (home cwd pfx : String) :
    ∀ (servers : List NamedStdioServer) (st : List ProcRecord),
      (∀ s ∈ servers, serverUpToDate home cwd pfx st s) →
      startServers home cwd servers pfx st =
        { state := st, calls := [],
          events := servers.map (fun s =>
            { type := .upToDate, server := s.name, port := s.internalPort }),
          results := servers.map (fun s =>
            { name := s.name, processName := getProcessName s.name pfx,
              port := s.internalPort }) } := by
  intro servers
  induction servers with
  | nil => intro st _; rfl
  | cons s0 rest ih =>
    intro st h
    rw [startServers]
    rw [processOne_of_upToDate home cwd pfx st s0 (h s0 (List.mem_cons_self _ _))]
    rw [ih st (fun s' h' => h s' (List.mem_cons_of_mem _ h'))]
    simp

/--
**C4.** Running the `up` reconciliation twice with unchanged desired state
and no external interference (the supervisor is the faithful model — a
start creates a record carrying exactly the options given): the second
`startServers` pass makes zero supervisor calls, emits `up_to_date` for
every service, and leaves the supervisor state untouched; and a second
`syncToClaudeConfig` over the file produced by the first writes exactly
the same content, so the client-config file is byte-identical (the
serialization is a deterministic function of this structure).
-/
theorem c4_up_idempotent (home cwd pfx : String) (servers : List NamedStdioServer)
    (st : List ProcRecord) (file : Option ClaudeConfig) (config : NormalizedConfig)
    (hnames : (servers.map NamedStdioServer.name).Nodup)
    (henv : ∀ s ∈ servers, (s.env.map Prod.fst).Nodup) :
    startServers home cwd servers pfx (startServers home cwd servers pfx st).state =
      { state := (startServers home cwd servers pfx st).state, calls := [],
        events := servers.map (fun s =>
          { type := .upToDate, server := s.name, port := s.internalPort }),
        results := servers.map (fun s =>
          { name := s.name, processName := getProcessName s.name pfx,
            port := s.internalPort }) } ∧
      syncToClaudeConfig (some (syncToClaudeConfig file config)) config =
        syncToClaudeConfig file config := by
  constructor
  · exact startServers_of_all_upToDate home cwd pfx servers _
      (startServers_establishes home cwd pfx servers st hnames henv)
  · exact syncToClaudeConfig_idempotent file config

/-- The concrete service used by the C4 witness only. -/
def c4Service : NamedStdioServer :=
  { name := "x", command := "cmd", internalPort := 19100 }

/-- **C4 witness**: one concrete service from an empty supervisor state —
the second pass is a pure `up_to_date` no-op. -/
theorem c4_witness :
    startServers "/h" "/w" [c4Service] "mcp-compose-"
        (startServers "/h" "/w" [c4Service] "mcp-compose-" []).state =
      { state := (startServers "/h" "/w" [c4Service] "mcp-compose-" []).state,
        calls := [],
        events := [{ type := .upToDate, server := "x", port := 19100 }],
        results := [{ name := "x", processName := getProcessName "x" "mcp-compose-",
                      port := 19100 }] } := by
  have h := (c4_up_idempotent "/h" "/w" "mcp-compose-" [c4Service] [] none
    { settings := DEFAULT_SETTINGS, mcpServers := [] }
    (by simp) (by intro s hs; simp at hs; subst hs; simp [c4Service])).1
  simpa [c4Service] using h

end MC
